import Mathlib

/-!
Verification of the enrichment + ETL core of the food-product pipeline.

The development shallowly embeds the two components under scrutiny:

* `src/enrichment/enricher.py` — `enrich_product`, `_calculate_quality_score`,
  `_categorize_product`;
* `src/etl/pipeline.py` — `ETLPipeline.run`, `_get_or_create_brand`,
  `_get_or_create_category`, `_load_product`, together with the relational
  schema of `src/etl/models.py`.

Python's dynamically-typed JSON-ish values are modelled by `PyVal`
(null / string / number / flat list); strings are lists of characters so that
the slicing, stripping and replacing performed by the source are plain list
operations; numbers are rationals (the source's arithmetic on them is exact
for every quantity the claims mention).  Dictionaries are association lists
with first-match lookup, matching Python's unique-key dicts.  Operations that
can raise in Python (attribute errors on non-strings, type errors on slicing)
return `Except PyErr`; the `raise` / `try` / `except` control flow of the
source is modelled by matching on those results in source order, so an error
aborts with exactly the first exception the Python code would raise.
-/

/-- Scalar JSON values as found inside payload lists. -/
inductive PyAtom where
  | aNull
  | aStr (s : List Char)
  | aNum (q : ℚ)
deriving DecidableEq, Repr

/-- Python values occurring in payloads and records: `None`, strings, numbers
and (flat) lists.  Nested containers never reach the code paths under
verification, so list elements are scalars. -/
inductive PyVal where
  | vNull
  | vStr (s : List Char)
  | vNum (q : ℚ)
  | vList (l : List PyAtom)
deriving DecidableEq, Repr

/-- A raised Python exception: its class name and message. -/
structure PyErr where
  kind : String
  msg : String
deriving DecidableEq, Repr

/-- Python truthiness (`if v:`): `None`, `""`, `0` and `[]` are falsy. -/
def PyVal.truthy : PyVal → Bool
  | .vNull => false
  | .vStr s => !s.isEmpty
  | .vNum q => decide (q ≠ 0)
  | .vList l => !l.isEmpty

/-- A Python dict, as an association list with unique-key first-match lookup. -/
abbrev PyDict := List (String × PyVal)

/-- Raw dict access: `d[k]` as an `Option`. -/
def pyLookup (d : PyDict) (k : String) : Option PyVal :=
  d.lookup k

/-- `d.get(k, dflt)`. -/
def pyGetD (d : PyDict) (k : String) (dflt : PyVal) : PyVal :=
  (pyLookup d k).getD dflt

/-- `d.get(k)` (default `None`). -/
def pyGet (d : PyDict) (k : String) : PyVal :=
  pyGetD d k .vNull

/-- Python's short-circuit `a or b` on values. -/
def pyOr (a b : PyVal) : PyVal :=
  if a.truthy then a else b

/-- `s.replace("en:", "")`: remove every occurrence of the three-character
substring `en:`, scanning left to right (exactly Python's `str.replace`). -/
def replaceEnAll : List Char → List Char
  | 'e' :: 'n' :: ':' :: rest => replaceEnAll rest
  | c :: rest => c :: replaceEnAll rest
  | [] => []

/-- `s.replace("-", " ")`. -/
def replaceHyphens (l : List Char) : List Char :=
  l.map (fun c => if c = '-' then ' ' else c)

/-- Python `str.title()`: the first letter of each run of letters is
uppercased, the rest lowercased (ASCII letters; the inputs the claims
exercise are ASCII apart from the sentinel, which `title` never touches). -/
def pyTitle (l : List Char) : List Char :=
  go false l
where
  go : Bool → List Char → List Char
  | _, [] => []
  | prev, c :: rest =>
    if c.isAlpha then (if prev then c.toLower else c.toUpper) :: go true rest
    else c :: go false rest

/-- Python `str.strip()` (whitespace trim on both ends). -/
def pyStrip (l : List Char) : List Char :=
  ((l.dropWhile Char.isWhitespace).reverse.dropWhile Char.isWhitespace).reverse

/-- Python `int(x)` on an exact number: truncation toward zero. -/
def pyInt (q : ℚ) : ℤ :=
  if 0 ≤ q then ⌊q⌋ else ⌈q⌉

/-- Python slicing `v[:n]`, defined on strings and lists, a `TypeError`
otherwise (`None[:n]`, `3[:n]` raise). -/
def pySlice (v : PyVal) (n : Nat) : Except PyErr PyVal :=
  match v with
  | .vStr l => .ok (.vStr (l.take n))
  | .vList l => .ok (.vList (l.take n))
  | _ => .error ⟨"TypeError", "object is not subscriptable"⟩

/-! ## Enrichment engine (`src/enrichment/enricher.py`) -/

/-- `NUTRISCORE_SCORES = {"a": 100, "b": 80, "c": 60, "d": 40, "e": 20}`. -/
def NUTRISCORE_SCORES : List (List Char × ℚ) :=
  [("a".data, 100), ("b".data, 80), ("c".data, 60), ("d".data, 40), ("e".data, 20)]

/-- `_calculate_quality_score(payload)`.

    score = 0
    score += NUTRISCORE_SCORES.get(payload.get("nutriscore_grade", "").lower(), 0) * 0.5
    score += (payload.get("completeness", 0) or 0) * 50
    return int(min(score, 100))

A non-string `nutriscore_grade` raises `AttributeError` at `.lower()`; a
truthy non-numeric `completeness` raises `TypeError` at the `+=`. -/
def calculateQualityScore (payload : PyDict) : Except PyErr ℤ :=
  match pyGetD payload "nutriscore_grade" (.vStr []) with
  | .vStr g =>
    let w : ℚ := ((NUTRISCORE_SCORES.lookup (g.map Char.toLower)).getD 0)
    match pyOr (pyGetD payload "completeness" (.vNum 0)) (.vNum 0) with
    | .vNum c => .ok (pyInt (min (w * (1 / 2) + c * 50) 100))
    | _ => .error ⟨"TypeError", "unsupported operand type for +="⟩
  | _ => .error ⟨"AttributeError", "object has no attribute 'lower'"⟩

/-- `_categorize_product(payload)`: main category if truthy, else first entry
of `categories_tags` if truthy, else the literal `"Non catégorisé"`; the
normalisation is `.replace("en:", "").replace("-", " ").title()`.

A truthy non-string `main_category` raises `AttributeError` at `.replace`;
a truthy non-subscriptable `categories_tags` raises `TypeError` at `[0]`,
and a non-string first element raises `AttributeError` at `.replace`. -/
def categorizeProduct (payload : PyDict) : Except PyErr (List Char) :=
  let mainCat := pyGetD payload "main_category" (.vStr [])
  if mainCat.truthy then
    match mainCat with
    | .vStr l => .ok (pyTitle (replaceHyphens (replaceEnAll l)))
    | _ => .error ⟨"AttributeError", "object has no attribute 'replace'"⟩
  else
    let cats := pyGetD payload "categories_tags" (.vList [])
    if cats.truthy then
      match cats with
      | .vStr (c :: _) => .ok (pyTitle (replaceHyphens (replaceEnAll [c])))
      | .vList (.aStr l :: _) => .ok (pyTitle (replaceHyphens (replaceEnAll l)))
      | .vList (_ :: _) => .error ⟨"AttributeError", "object has no attribute 'replace'"⟩
      | _ => .error ⟨"TypeError", "object is not subscriptable"⟩
    else .ok "Non catégorisé".data

/-- The result of one enrichment:
`{"raw_id", "status", "enriched_at", "data", "error"}`. -/
structure EnrichedRecord where
  raw_id : List Char
  status : String
  enriched_at : Option (List Char)
  data : PyDict
  error : Option PyErr
deriving DecidableEq, Repr

/-- A raw MongoDB document as consumed by `enrich_product`: its stringified
`_id` and its `payload` dict. -/
structure RawDoc where
  idStr : List Char
  payload : PyDict
deriving DecidableEq, Repr

/-- One attempt of the `try:` body of `enrich_product`: compute the two
derived fields, then assemble the `data` dict (keys in source order). -/
def enrichAttempt (payload : PyDict) : Except PyErr PyDict :=
  match calculateQualityScore payload with
  | .error e => .error e
  | .ok q =>
    match categorizeProduct payload with
    | .error e => .error e
    | .ok cat =>
      .ok [("code", pyGetD payload "code" (.vStr [])),
           ("product_name", pyGetD payload "product_name" (.vStr [])),
           ("brands", pyGetD payload "brands" (.vStr [])),
           ("quality_score", .vNum (q : ℚ)),
           ("category", .vStr cat),
           ("nutriscore_grade", pyGetD payload "nutriscore_grade" (.vStr [])),
           ("nova_group", pyGet payload "nova_group")]

/-- The retry loop of `enrich_product`: `fuel` is the number of remaining
iterations of `for attempt in range(max_retries + 1)`.  Exhausting the loop
without entering it (empty `range`) falls through to the `"pending"`
fallback return. -/
def enrichLoop (rid : List Char) (payload : PyDict) (now : List Char) :
    Nat → EnrichedRecord
  | 0 => ⟨rid, "pending", none, [], none⟩
  | fuel + 1 =>
    match enrichAttempt payload with
    | .ok d => ⟨rid, "success", some now, d, none⟩
    | .error e =>
      if fuel = 0 then ⟨rid, "failed", some now, [], some e⟩
      else enrichLoop rid payload now fuel

/-- `enrich_product(raw_doc, max_retries)`.  The wall clock read by
`datetime.utcnow().isoformat() + "Z"` is passed in as `now`. -/
def enrich_product (doc : RawDoc) (max_retries : ℤ) (now : List Char) :
    EnrichedRecord :=
  enrichLoop doc.idStr doc.payload now (max_retries + 1).toNat

/-! ## Relational schema (`src/etl/models.py`) and ETL state -/

/-- The ORM model classes declared by `src/etl/models.py` (each one table). -/
def modelClassNames : List String := ["Brand", "Category", "Product"]

/-- The `__tablename__` of each declared model. -/
def modelTableNames : List String := ["brands", "categories", "products"]

/-- A row of `brands`: `id` (autoincrement primary key) and unique `name`. -/
structure BrandRow where
  id : Nat
  name : List Char
deriving DecidableEq, Repr

/-- A row of `categories`: `id` and unique `name`. -/
structure CategoryRow where
  id : Nat
  name : List Char
deriving DecidableEq, Repr

/-- A row of `products`.  The dynamically-typed columns hold whatever Python
value `_load_product` assigned (the store would coerce them at commit;
nothing under verification reads them back).  `created_at` is the insertion
timestamp filled in by the column default. -/
structure ProductRow where
  id : Nat
  code : PyVal
  product_name : PyVal
  brand_id : Option Nat
  category_id : Option Nat
  nutriscore_grade : PyVal
  nova_group : PyVal
  quality_score : PyVal
  created_at : Nat
deriving DecidableEq, Repr

/-- The relational store: the three tables plus each table's autoincrement
counter (the next primary key to assign). -/
structure DB where
  brands : List BrandRow
  categories : List CategoryRow
  products : List ProductRow
  nextBrandId : Nat
  nextCategoryId : Nat
  nextProductId : Nat
deriving DecidableEq, Repr

/-- A freshly created store. -/
def emptyDB : DB := ⟨[], [], [], 1, 1, 1⟩

/-- The state of one `ETLPipeline` run: the transactional session's view of
the store plus the per-run `brands_cache` / `categories_cache` (name ↦ row
id, most recent first, mirroring the dict the source keeps). -/
structure ETLState where
  db : DB
  brandsCache : List (List Char × Nat)
  categoriesCache : List (List Char × Nat)
deriving DecidableEq, Repr

/-- `_get_or_create_brand(name)`: `None` for a falsy name; otherwise trim and
truncate to 255 characters, then consult the cache, then the session, and
finally insert-and-flush a new row; the result is cached.  A truthy
non-string raises `AttributeError` at `.strip()`. -/
def getOrCreateBrand (s : ETLState) (nameVal : PyVal) :
    Except PyErr (ETLState × Option Nat) :=
  if nameVal.truthy = false then .ok (s, none)
  else
    match nameVal with
    | .vStr raw =>
      let n := (pyStrip raw).take 255
      match s.brandsCache.lookup n with
      | some bid => .ok (s, some bid)
      | none =>
        match s.db.brands.find? (fun b => b.name = n) with
        | some b => .ok (⟨s.db, (n, b.id) :: s.brandsCache, s.categoriesCache⟩, some b.id)
        | none =>
          let bid := s.db.nextBrandId
          .ok (⟨{ s.db with brands := s.db.brands ++ [⟨bid, n⟩], nextBrandId := bid + 1 },
                (n, bid) :: s.brandsCache, s.categoriesCache⟩, some bid)
    | _ => .error ⟨"AttributeError", "object has no attribute 'strip'"⟩

/-- `_get_or_create_category(name)`: same logic as the brand lookup. -/
def getOrCreateCategory (s : ETLState) (nameVal : PyVal) :
    Except PyErr (ETLState × Option Nat) :=
  if nameVal.truthy = false then .ok (s, none)
  else
    match nameVal with
    | .vStr raw =>
      let n := (pyStrip raw).take 255
      match s.categoriesCache.lookup n with
      | some cid => .ok (s, some cid)
      | none =>
        match s.db.categories.find? (fun c => c.name = n) with
        | some c => .ok (⟨s.db, s.brandsCache, (n, c.id) :: s.categoriesCache⟩, some c.id)
        | none =>
          let cid := s.db.nextCategoryId
          .ok (⟨{ s.db with categories := s.db.categories ++ [⟨cid, n⟩], nextCategoryId := cid + 1 },
                s.brandsCache, (n, cid) :: s.categoriesCache⟩, some cid)
    | _ => .error ⟨"AttributeError", "object has no attribute 'strip'"⟩

/-- `_load_product(enriched_doc)`.  A falsy `data.get("code")` skips the
record (`False`, nothing staged).  Otherwise the product is looked up by code
(the session's view, pending rows included — the source session autoflushes);
an existing row has its mutable fields rewritten in place, a missing one is
inserted with a fresh id and `created_at := t`.  Field computations appear in
source order, so an exception propagates exactly where Python would raise
it; a partially mutated session aborts the whole run, so deferring the
in-place writes to the end of the step is observationally equivalent. -/
def loadProduct (s : ETLState) (rec : EnrichedRecord) (t : Nat) :
    Except PyErr (ETLState × Bool) :=
  let data := rec.data
  let code := pyGet data "code"
  if code.truthy = false then .ok (s, false)
  else
    match s.db.products.find? (fun p => p.code = code) with
    | some existing =>
      match pySlice (pyGetD data "product_name" (.vStr [])) 500 with
      | .error e => .error e
      | .ok pname =>
        match pySlice (pyOr (pyGet data "nutriscore_grade") (.vStr [])) 1 with
        | .error e => .error e
        | .ok grade =>
          let nova := pyGet data "nova_group"
          let qs := pyGet data "quality_score"
          match getOrCreateBrand s (pyGetD data "brands" (.vStr [])) with
          | .error e => .error e
          | .ok (s1, b) =>
            match getOrCreateCategory s1 (pyGetD data "category" (.vStr [])) with
            | .error e => .error e
            | .ok (s2, c) =>
              .ok ({ s2 with db := { s2.db with products := s2.db.products.map (fun p =>
                  if p.id = existing.id then
                    { p with product_name := pname, nutriscore_grade := grade,
                             nova_group := nova, quality_score := qs,
                             brand_id := b, category_id := c }
                  else p) } }, true)
    | none =>
      match getOrCreateBrand s (pyGetD data "brands" (.vStr [])) with
      | .error e => .error e
      | .ok (s1, b) =>
        match getOrCreateCategory s1 (pyGetD data "category" (.vStr [])) with
        | .error e => .error e
        | .ok (s2, c) =>
          match pySlice (pyGetD data "product_name" (.vStr [])) 500 with
          | .error e => .error e
          | .ok pname =>
            match pySlice (pyOr (pyGet data "nutriscore_grade") (.vStr [])) 1 with
            | .error e => .error e
            | .ok grade =>
              let nova := pyGet data "nova_group"
              let qs := pyGet data "quality_score"
              let pid := s2.db.nextProductId
              .ok ({ s2 with db := { s2.db with
                  products := s2.db.products ++
                    [⟨pid, code, pname, b, c, grade, nova, qs, t⟩],
                  nextProductId := pid + 1 } }, true)

/-- The load loop of `run()` (step 4): process each record in order, counting
those `_load_product` accepted; the first exception aborts the loop. -/
def runFold (t : Nat) : ETLState → List EnrichedRecord → Except PyErr (ETLState × Nat)
  | s, [] => .ok (s, 0)
  | s, r :: rs =>
    match loadProduct s r t with
    | .error e => .error e
    | .ok (s1, b) =>
      match runFold t s1 rs with
      | .error e => .error e
      | .ok (s2, n) => .ok (s2, if b then n + 1 else n)

/-- `ETLPipeline().run()` over an already-extracted batch: fresh caches, one
transactional session over `db`.  On success the session commits — the
staged state becomes durable; on an exception it rolls back — the durable
store is the original `db` — and the error is re-raised.  The final `Bool`
records that the `finally:` block closed the session (both branches). -/
def runModel (db : DB) (batch : List EnrichedRecord) (t : Nat) :
    Except PyErr Nat × DB × Bool :=
  match runFold t ⟨db, [], []⟩ batch with
  | .ok (s, n) => (.ok n, s.db, true)
  | .error e => (.error e, db, true)

/-- The durable relational store left behind by one `run()`. -/
def runDB (db : DB) (batch : List EnrichedRecord) (t : Nat) : DB :=
  (runModel db batch t).2.1

/-! ## Proof-layer definitions

Cache-free reference semantics for the load step, the invariants the
relational store maintains, and the "last write wins" characterisation used
for the idempotence proof. -/

/-- The brand names, in row order. -/
def brandNames (db : DB) : List (List Char) := db.brands.map (·.name)

/-- The category names, in row order. -/
def categoryNames (db : DB) : List (List Char) := db.categories.map (·.name)

/-- The product business keys, in row order. -/
def productCodes (db : DB) : List PyVal := db.products.map (·.code)

/-- The product primary keys, in row order. -/
def productIds (db : DB) : List Nat := db.products.map (·.id)

/-- Store invariants: the unique columns (`brands.name`, `categories.name`,
`products.code`) hold no duplicates, primary keys are below the
autoincrement counters, and product primary keys are distinct. -/
def DBInv (db : DB) : Prop :=
  (brandNames db).Nodup ∧ (∀ b ∈ db.brands, b.id < db.nextBrandId) ∧
  (categoryNames db).Nodup ∧ (∀ c ∈ db.categories, c.id < db.nextCategoryId) ∧
  (productCodes db).Nodup ∧ (∀ p ∈ db.products, p.id < db.nextProductId) ∧
  (productIds db).Nodup

/-- Cache consistency: every cache entry points at a row of the session's
store carrying exactly the cached name. -/
def CacheInv (s : ETLState) : Prop :=
  (∀ e ∈ s.brandsCache, ∃ b ∈ s.db.brands, b.id = e.2 ∧ b.name = e.1) ∧
  (∀ e ∈ s.categoriesCache, ∃ c ∈ s.db.categories, c.id = e.2 ∧ c.name = e.1)

/-- The run invariant: store invariants plus cache consistency. -/
def RunInv (s : ETLState) : Prop := DBInv s.db ∧ CacheInv s

/-- Cache-free get-or-create for a (trimmed) brand name. -/
def resolveBrandDB (db : DB) (n : List Char) : DB × Nat :=
  match db.brands.find? (fun b => b.name = n) with
  | some b => (db, b.id)
  | none =>
    ({ db with brands := db.brands ++ [⟨db.nextBrandId, n⟩],
               nextBrandId := db.nextBrandId + 1 }, db.nextBrandId)

/-- Cache-free get-or-create for a (trimmed) category name. -/
def resolveCategoryDB (db : DB) (n : List Char) : DB × Nat :=
  match db.categories.find? (fun c => c.name = n) with
  | some c => (db, c.id)
  | none =>
    ({ db with categories := db.categories ++ [⟨db.nextCategoryId, n⟩],
               nextCategoryId := db.nextCategoryId + 1 }, db.nextCategoryId)

/-- Cache-free `_get_or_create_brand` on a raw value. -/
def resolveBrandE (db : DB) (v : PyVal) : Except PyErr (DB × Option Nat) :=
  if v.truthy = false then .ok (db, none)
  else
    match v with
    | .vStr raw =>
      .ok ((resolveBrandDB db ((pyStrip raw).take 255)).1,
           some (resolveBrandDB db ((pyStrip raw).take 255)).2)
    | _ => .error ⟨"AttributeError", "object has no attribute 'strip'"⟩

/-- Cache-free `_get_or_create_category` on a raw value. -/
def resolveCategoryE (db : DB) (v : PyVal) : Except PyErr (DB × Option Nat) :=
  if v.truthy = false then .ok (db, none)
  else
    match v with
    | .vStr raw =>
      .ok ((resolveCategoryDB db ((pyStrip raw).take 255)).1,
           some (resolveCategoryDB db ((pyStrip raw).take 255)).2)
    | _ => .error ⟨"AttributeError", "object has no attribute 'strip'"⟩

/-- Cache-free `_load_product`. -/
def loadDB (db : DB) (rec : EnrichedRecord) (t : Nat) : Except PyErr (DB × Bool) :=
  let data := rec.data
  let code := pyGet data "code"
  if code.truthy = false then .ok (db, false)
  else
    match db.products.find? (fun p => p.code = code) with
    | some existing =>
      match pySlice (pyGetD data "product_name" (.vStr [])) 500 with
      | .error e => .error e
      | .ok pname =>
        match pySlice (pyOr (pyGet data "nutriscore_grade") (.vStr [])) 1 with
        | .error e => .error e
        | .ok grade =>
          let nova := pyGet data "nova_group"
          let qs := pyGet data "quality_score"
          match resolveBrandE db (pyGetD data "brands" (.vStr [])) with
          | .error e => .error e
          | .ok (db1, b) =>
            match resolveCategoryE db1 (pyGetD data "category" (.vStr [])) with
            | .error e => .error e
            | .ok (db2, c) =>
              .ok ({ db2 with products := db2.products.map (fun p =>
                  if p.id = existing.id then
                    { p with product_name := pname, nutriscore_grade := grade,
                             nova_group := nova, quality_score := qs,
                             brand_id := b, category_id := c }
                  else p) }, true)
    | none =>
      match resolveBrandE db (pyGetD data "brands" (.vStr [])) with
      | .error e => .error e
      | .ok (db1, b) =>
        match resolveCategoryE db1 (pyGetD data "category" (.vStr [])) with
        | .error e => .error e
        | .ok (db2, c) =>
          match pySlice (pyGetD data "product_name" (.vStr [])) 500 with
          | .error e => .error e
          | .ok pname =>
            match pySlice (pyOr (pyGet data "nutriscore_grade") (.vStr [])) 1 with
            | .error e => .error e
            | .ok grade =>
              let nova := pyGet data "nova_group"
              let qs := pyGet data "quality_score"
              let pid := db2.nextProductId
              let newRow : ProductRow := ⟨pid, code, pname, b, c, grade, nova, qs, t⟩
              .ok ({ db2 with products := db2.products ++ [newRow],
                              nextProductId := pid + 1 }, true)

/-- Cache-free load loop. -/
def foldDB (t : Nat) : DB → List EnrichedRecord → Except PyErr (DB × Nat)
  | db, [] => .ok (db, 0)
  | db, r :: rs =>
    match loadDB db r t with
    | .error e => .error e
    | .ok (db1, b) =>
      match foldDB t db1 rs with
      | .error e => .error e
      | .ok (db2, n) => .ok (db2, if b then n + 1 else n)

/-- Total slicing (used only where `pySlice` is known to succeed). -/
def sliceD (v : PyVal) (n : Nat) : PyVal :=
  match v with
  | .vStr l => .vStr (l.take n)
  | .vList l => .vList (l.take n)
  | _ => v

/-- The id of the brand row carrying the given (trimmed) name, if any. -/
def brandIdFor (db : DB) (n : List Char) : Option Nat :=
  (db.brands.find? (fun b => b.name = n)).map (·.id)

/-- The id of the category row carrying the given (trimmed) name, if any. -/
def categoryIdFor (db : DB) (n : List Char) : Option Nat :=
  (db.categories.find? (fun c => c.name = n)).map (·.id)

/-- The foreign key `_load_product` stores for a given brand value, resolved
against `db` (meaningful when the name is already present). -/
def resolvedBrandId (db : DB) (v : PyVal) : Option Nat :=
  if v.truthy = false then none
  else
    match v with
    | .vStr raw => brandIdFor db ((pyStrip raw).take 255)
    | _ => none

/-- The foreign key stored for a given category value. -/
def resolvedCategoryId (db : DB) (v : PyVal) : Option Nat :=
  if v.truthy = false then none
  else
    match v with
    | .vStr raw => categoryIdFor db ((pyStrip raw).take 255)
    | _ => none

/-- The business key a record would be loaded under. -/
def recCode (rec : EnrichedRecord) : PyVal := pyGet rec.data "code"

/-- The mutable columns of a product row, rewritten from a record with
foreign keys resolved against `db`.  Identity, business key and
`created_at` are untouched. -/
def updRow (p : ProductRow) (rec : EnrichedRecord) (db : DB) : ProductRow :=
  { p with product_name := sliceD (pyGetD rec.data "product_name" (.vStr [])) 500,
           nutriscore_grade := sliceD (pyOr (pyGet rec.data "nutriscore_grade") (.vStr [])) 1,
           nova_group := pyGet rec.data "nova_group",
           quality_score := pyGet rec.data "quality_score",
           brand_id := resolvedBrandId db (pyGetD rec.data "brands" (.vStr [])),
           category_id := resolvedCategoryId db (pyGetD rec.data "category" (.vStr [])) }

/-- The last record of the batch that writes the given business key. -/
def lastWrite : List EnrichedRecord → PyVal → Option EnrichedRecord
  | [], _ => none
  | r :: rs, c =>
    match lastWrite rs c with
    | some x => some x
    | none => if (recCode r).truthy = true ∧ recCode r = c then some r else none

/-- A freshly inserted product row: identity `pid`, the record's key,
`created_at := t`, and the mutable columns written from the record. -/
def newRowFor (rec : EnrichedRecord) (db : DB) (pid : Nat) (t : Nat) : ProductRow :=
  updRow ⟨pid, recCode rec, .vNull, none, none, .vNull, .vNull, .vNull, t⟩ rec db

/-- The store is a fixpoint of the batch: every product row already carries
the values of the batch's last write for its key (resolved against this very
store). -/
def WriteFixed (db : DB) (batch : List EnrichedRecord) : Prop :=
  ∀ p ∈ db.products, ∀ r, lastWrite batch p.code = some r → updRow p r db = p

/-- Row agreement up to pending rewrites: identity, key and `created_at`
coincide, and the rows are equal outright unless some record of `rest` still
writes this key. -/
def rowAgree (rest : List EnrichedRecord) (pE pF : ProductRow) : Prop :=
  pF.id = pE.id ∧ pF.code = pE.code ∧ pF.created_at = pE.created_at ∧
    (lastWrite rest pE.code = none → pF = pE)

/-- Mid-run relation of the second load over a saturated store `E`: the
lookup tables and counters agree with `E`, and products agree rowwise up to
the writes still pending in `rest`. -/
def AgreeExcept (E F : DB) (rest : List EnrichedRecord) : Prop :=
  F.brands = E.brands ∧ F.categories = E.categories ∧
  F.nextBrandId = E.nextBrandId ∧ F.nextCategoryId = E.nextCategoryId ∧
  F.nextProductId = E.nextProductId ∧
  List.Forall₂ (rowAgree rest) E.products F.products

/-- A record whose per-record computations cannot raise: its slices are
defined and its truthy brand / category values are strings.  Success of
`_load_product` on a record depends only on this, never on the store. -/
def docOK (rec : EnrichedRecord) : Prop :=
  (recCode rec).truthy = true →
    ((∃ w, pySlice (pyGetD rec.data "product_name" (.vStr [])) 500 = .ok w) ∧
     (∃ w, pySlice (pyOr (pyGet rec.data "nutriscore_grade") (.vStr [])) 1 = .ok w) ∧
     ((pyGetD rec.data "brands" (.vStr [])).truthy = true →
        ∃ raw, pyGetD rec.data "brands" (.vStr []) = .vStr raw) ∧
     ((pyGetD rec.data "category" (.vStr [])).truthy = true →
        ∃ raw, pyGetD rec.data "category" (.vStr []) = .vStr raw))

/-- Every key, brand name and category name the batch needs is already
present in the store (the situation after a successful first run). -/
def Saturated (db : DB) (batch : List EnrichedRecord) : Prop :=
  ∀ r ∈ batch, (recCode r).truthy = true →
    ((∃ p ∈ db.products, p.code = recCode r) ∧
     (∀ raw, pyGetD r.data "brands" (.vStr []) = .vStr raw →
        (pyGetD r.data "brands" (.vStr [])).truthy = true →
        (pyStrip raw).take 255 ∈ brandNames db) ∧
     (∀ raw, pyGetD r.data "category" (.vStr []) = .vStr raw →
        (pyGetD r.data "category" (.vStr [])).truthy = true →
        (pyStrip raw).take 255 ∈ categoryNames db))

/-- Whether the three-character substring `en:` occurs anywhere. -/
def containsEnColon : List Char → Bool
  | 'e' :: 'n' :: ':' :: _ => true
  | _ :: rest => containsEnColon rest
  | [] => false

/-- The raw payload of the spec's end-to-end scenario. -/
def cerealPayload : PyDict :=
  [("code", .vStr "1234567890123".data),
   ("product_name", .vStr "Cereal Test".data),
   ("brands", .vStr "TestBrand".data),
   ("main_category", .vStr "en:breakfast-cereals".data),
   ("nutriscore_grade", .vStr "b".data),
   ("nova_group", .vNum 3),
   ("completeness", .vNum (4 / 5))]

/-- A raw document that enriches successfully. -/
def sampleSuccessDoc : RawDoc :=
  ⟨"abc123".data, [("code", .vStr "123".data), ("nutriscore_grade", .vStr "b".data)]⟩

/-- A raw document whose enrichment raises on every attempt: a numeric
`nutriscore_grade` has no `.lower()`. -/
def sampleFailDoc : RawDoc := ⟨"abc123".data, [("nutriscore_grade", .vNum 1)]⟩

/-- A fixed enrichment timestamp. -/
def sampleNow : List Char := "2026-01-01T00:00:00Z".data

/-- An enriched record with no business key. -/
def recNoCode : EnrichedRecord :=
  ⟨"r0".data, "success", some sampleNow, [("product_name", .vStr "X".data)], none⟩

/-- A loadable enriched record. -/
def recGood : EnrichedRecord :=
  ⟨"r1".data, "success", some sampleNow,
   [("code", .vStr "1".data), ("product_name", .vStr "Good".data),
    ("brands", .vStr "B".data), ("category", .vStr "C".data),
    ("quality_score", .vNum 80)], none⟩

/-- A record whose load raises: a numeric `product_name` cannot be sliced. -/
def recBad : EnrichedRecord :=
  ⟨"r2".data, "success", some sampleNow,
   [("code", .vStr "2".data), ("product_name", .vNum 3)], none⟩

/-- A minimal record carrying just a business key and a name. -/
def mkCodeNameRec (code nm : List Char) : EnrichedRecord :=
  ⟨"r".data, "success", none, [("code", .vStr code), ("product_name", .vStr nm)], none⟩

/-- Structural decidable equality for `Except` results. -/
def exceptDecEq {ε α : Type} [DecidableEq ε] [DecidableEq α] :
    (a b : Except ε α) → Decidable (a = b)
  | .ok a, .ok b =>
    if h : a = b then .isTrue (by rw [h])
    else .isFalse (by intro e; injection e; contradiction)
  | .error a, .error b =>
    if h : a = b then .isTrue (by rw [h])
    else .isFalse (by intro e; injection e; contradiction)
  | .ok _, .error _ => .isFalse (by intro h; exact Except.noConfusion h)
  | .error _, .ok _ => .isFalse (by intro h; exact Except.noConfusion h)

instance {ε α : Type} [DecidableEq ε] [DecidableEq α] : DecidableEq (Except ε α) :=
  exceptDecEq

/-! ## Helper lemmas -/

theorem pyInt_intCast (n : ℤ) : pyInt (n : ℚ) = n := by
  unfold pyInt
  by_cases h : (0:ℚ) ≤ (n : ℚ)
  · rw [if_pos h, Int.floor_intCast]
  · rw [if_neg h, Int.ceil_intCast]

theorem nutriscore_lookup_nonneg (x : List Char) :
    (0:ℚ) ≤ (NUTRISCORE_SCORES.lookup x).getD 0 := by
  simp only [NUTRISCORE_SCORES, List.lookup]
  repeat' split
  all_goals norm_num

theorem enrichLoop_run (rid : List Char) (payload : PyDict) (now : List Char) :
    ∀ fuel : Nat, fuel ≠ 0 →
      (∀ d, enrichAttempt payload = .ok d →
         enrichLoop rid payload now fuel = ⟨rid, "success", some now, d, none⟩) ∧
      (∀ e, enrichAttempt payload = .error e →
         enrichLoop rid payload now fuel = ⟨rid, "failed", some now, [], some e⟩) := by
  intro fuel
  induction fuel with
  | zero => intro h; exact absurd rfl h
  | succ k ih =>
    intro _
    constructor
    · intro d hd
      simp [enrichLoop, hd]
    · intro e he
      by_cases hk : k = 0
      · simp [enrichLoop, he, hk]
      · simp only [enrichLoop, he]
        rw [if_neg hk]
        exact (ih hk).2 e he

theorem replaceEnAll_cons_of_ne (c : Char) (rest : List Char)
    (hne : ∀ (r : List Char), c = 'e' → rest = 'n' :: ':' :: r → False) :
    replaceEnAll (c :: rest) = c :: replaceEnAll rest := by
  rw [replaceEnAll.eq_def]
  split
  · rename_i rest1 heq
    injection heq with h1 h2
    exact (hne rest1 h1 h2).elim
  · rename_i c1 rest1 hne1 heq
    injection heq with h1 h2
    rw [h1, h2]
  · rename_i heq
    exact absurd heq (by simp)

theorem containsEnColon_cons_of_ne (c : Char) (rest : List Char)
    (hne : ∀ (r : List Char), c = 'e' → rest = 'n' :: ':' :: r → False) :
    containsEnColon (c :: rest) = containsEnColon rest := by
  rw [containsEnColon.eq_def]
  split
  · rename_i rest1 heq
    injection heq with h1 h2
    exact (hne rest1 h1 h2).elim
  · rename_i c1 rest1 hne1 heq
    injection heq with h1 h2
    rw [h2]
  · rename_i heq
    exact absurd heq (by simp)

theorem replaceEnAll_eq_self (l : List Char) (h : containsEnColon l = false) :
    replaceEnAll l = l := by
  induction l using replaceEnAll.induct with
  | case1 rest ih => simp [containsEnColon] at h
  | case2 c rest hne ih =>
    rw [replaceEnAll_cons_of_ne c rest hne]
    rw [containsEnColon_cons_of_ne c rest hne] at h
    rw [ih h]
  | case3 => rfl

/-! ## Claim theorems — enrichment engine -/

/-- C3 counterexample: the claimed clamp to `[0,100]` does not exist below
zero — the payload with grade `b` and completeness `-2` scores
`int(min(80*0.5 + (-2)*50, 100)) = -60`, outside the claimed interval. -/
theorem quality_score_clamp_counterexample :
    calculateQualityScore
        [("nutriscore_grade", PyVal.vStr "b".data), ("completeness", PyVal.vNum (-2))]
      = .ok (-60)
    ∧ ((-60 : ℤ) < 0) := by
  refine ⟨?_, by norm_num⟩
  have h : calculateQualityScore
        [("nutriscore_grade", PyVal.vStr "b".data), ("completeness", PyVal.vNum (-2))]
      = .ok (pyInt (min ((NUTRISCORE_SCORES.lookup ("b".data.map Char.toLower)).getD 0
          * (1 / 2) + (-2) * 50) 100)) := rfl
  rw [h]
  have hl : (NUTRISCORE_SCORES.lookup ("b".data.map Char.toLower)).getD 0 = (80:ℚ) := by decide
  rw [hl]
  have harg : min ((80:ℚ) * (1 / 2) + (-2) * 50) 100 = ((-60:ℤ) : ℚ) := by norm_num
  rw [harg, pyInt_intCast]

/-- C3 amended: for every payload whose `nutriscore_grade` slot reads as a
string and whose `completeness` slot reads (after the `or 0` null-guard) as
a number, the quality score equals `NUTRISCORE_WEIGHT[grade] * 0.5 +
completeness * 50` clamped from above at 100 only and truncated to an
integer — there is no lower clamp — with the weight table a:100 b:80 c:60
d:40 e:20, an unknown or missing grade contributing 0 and a missing or null
completeness contributing 0; on the intended domain of non-negative
completeness (a 0–1 fraction) the result does lie in `[0, 100]`. -/
theorem quality_score_formula (payload : PyDict) (g : List Char) (c : ℚ)
    (hg : pyGetD payload "nutriscore_grade" (.vStr []) = .vStr g)
    (hc : pyOr (pyGetD payload "completeness" (.vNum 0)) (.vNum 0) = .vNum c) :
    calculateQualityScore payload =
      .ok (pyInt (min
        ((NUTRISCORE_SCORES.lookup (g.map Char.toLower)).getD 0 * (1 / 2) + c * 50) 100))
    ∧ (0 ≤ c →
        0 ≤ pyInt (min
          ((NUTRISCORE_SCORES.lookup (g.map Char.toLower)).getD 0 * (1 / 2) + c * 50) 100)
        ∧ pyInt (min
            ((NUTRISCORE_SCORES.lookup (g.map Char.toLower)).getD 0 * (1 / 2) + c * 50) 100)
          ≤ 100) := by
  constructor
  · simp only [calculateQualityScore, hg, hc]
  · intro hc0
    have h0 : (0:ℚ) ≤ (NUTRISCORE_SCORES.lookup (g.map Char.toLower)).getD 0 :=
      nutriscore_lookup_nonneg _
    have harg : (0:ℚ) ≤ (NUTRISCORE_SCORES.lookup (g.map Char.toLower)).getD 0 * (1 / 2) + c * 50 :=
      add_nonneg (mul_nonneg h0 (by norm_num)) (mul_nonneg hc0 (by norm_num))
    have hq0 : (0:ℚ) ≤ min
        ((NUTRISCORE_SCORES.lookup (g.map Char.toLower)).getD 0 * (1 / 2) + c * 50) 100 :=
      le_min harg (by norm_num)
    have hq100 : min
        ((NUTRISCORE_SCORES.lookup (g.map Char.toLower)).getD 0 * (1 / 2) + c * 50) 100
        ≤ (100:ℚ) := min_le_right _ _
    rw [pyInt, if_pos hq0]
    refine ⟨Int.floor_nonneg.mpr hq0, ?_⟩
    have h100 : ((100:ℤ):ℚ) = (100:ℚ) := by norm_num
    have := Int.floor_le_floor (α := ℚ) (h100 ▸ hq100)
    rw [Int.floor_intCast] at this
    exact this

/-- C3 amended witness: the spec's end-to-end payload (grade `b`,
completeness 0.8) satisfies the hypotheses and scores exactly 80. -/
theorem quality_score_formula_witness :
    pyGetD cerealPayload "nutriscore_grade" (.vStr []) = .vStr "b".data
    ∧ pyOr (pyGetD cerealPayload "completeness" (.vNum 0)) (.vNum 0) = .vNum (4 / 5)
    ∧ calculateQualityScore cerealPayload = .ok 80 := by
  have hg : pyGetD cerealPayload "nutriscore_grade" (.vStr []) = .vStr "b".data := by decide
  have h1 : pyGetD cerealPayload "completeness" (.vNum 0) = .vNum (4 / 5) := rfl
  have ht : (PyVal.vNum (4 / 5)).truthy = true := by
    simp only [PyVal.truthy]
    norm_num
  have hc : pyOr (pyGetD cerealPayload "completeness" (.vNum 0)) (.vNum 0) = .vNum (4 / 5) := by
    simp [h1, pyOr, ht]
  refine ⟨hg, hc, ?_⟩
  rw [(quality_score_formula cerealPayload "b".data (4 / 5) hg hc).1]
  have hl : (NUTRISCORE_SCORES.lookup ("b".data.map Char.toLower)).getD 0 = (80:ℚ) := by decide
  rw [hl]
  have harg : min ((80:ℚ) * (1 / 2) + 4 / 5 * 50) 100 = ((80:ℤ) : ℚ) := by norm_num
  rw [harg, pyInt_intCast]

/-- C6 evidence: a payload whose `completeness` is -1 scores -50 — the code
clamps only from above (`min(score, 100)`), violating the claimed (and the
function docstring's) 0–100 bound. -/
theorem quality_score_below_zero :
    calculateQualityScore [("completeness", PyVal.vNum (-1))] = .ok (-50) := by
  have h : calculateQualityScore [("completeness", PyVal.vNum (-1))]
      = .ok (pyInt (min ((NUTRISCORE_SCORES.lookup (([] : List Char).map Char.toLower)).getD 0
          * (1 / 2) + (-1) * 50) 100)) := rfl
  rw [h]
  have hl : (NUTRISCORE_SCORES.lookup (([] : List Char).map Char.toLower)).getD 0 = (0:ℚ) := by
    decide
  rw [hl]
  have harg : min ((0:ℚ) * (1 / 2) + (-1) * 50) 100 = ((-50:ℤ) : ℚ) := by norm_num
  rw [harg, pyInt_intCast]

/-- C4 counterexample: the empty payload categorizes to the literal
`"Non catégorisé"`, not the claimed `"Uncategorized"` sentinel; and a
payload with the namespaced tag `fr:cereales` categorizes to
`"Fr:Cereales"`, which still starts with a namespace prefix followed by a
colon — only the substring `en:` is removed, no general leading-namespace
strip happens. -/
theorem categorize_counterexample :
    categorizeProduct [] = .ok "Non catégorisé".data
    ∧ "Non catégorisé".data ≠ "Uncategorized".data
    ∧ categorizeProduct [("main_category", PyVal.vStr "fr:cereales".data)]
        = .ok "Fr:Cereales".data
    ∧ "Fr:Cereales".data.take 3 = "Fr:".data := by
  refine ⟨by decide, by decide, by decide, by decide⟩

/-- C4 amended: for every payload, the category is computed by three
prioritised branches — a truthy string `main_category` is normalised by
removing every occurrence of the substring `en:`, replacing hyphens with
spaces and title-casing (so a leading `en:` is stripped — in particular
whenever `en:` does not occur in the remainder the result is exactly the
spec's strip-the-leading-prefix —, but other namespace prefixes are kept);
otherwise a truthy `categories_tags` list has the same normalisation
applied to its first (string) tag; otherwise the literal sentinel
`"Non catégorisé"` (not `"Uncategorized"`) is returned. -/
theorem categorize_amended (payload : PyDict) :
    (∀ l, pyGetD payload "main_category" (.vStr []) = .vStr l → l ≠ [] →
       categorizeProduct payload = .ok (pyTitle (replaceHyphens (replaceEnAll l))))
    ∧ (∀ l rest, (pyGetD payload "main_category" (.vStr [])).truthy = false →
         pyGetD payload "categories_tags" (.vList []) = .vList (.aStr l :: rest) →
         categorizeProduct payload = .ok (pyTitle (replaceHyphens (replaceEnAll l))))
    ∧ ((pyGetD payload "main_category" (.vStr [])).truthy = false →
       (pyGetD payload "categories_tags" (.vList [])).truthy = false →
       categorizeProduct payload = .ok "Non catégorisé".data)
    ∧ (∀ rest : List Char, containsEnColon rest = false →
         replaceEnAll ('e' :: 'n' :: ':' :: rest) = rest) := by
  refine ⟨?_, ?_, ?_, ?_⟩
  · intro l hm hl
    have hE : l.isEmpty = false := by
      cases l with
      | nil => exact absurd rfl hl
      | cons a as => rfl
    simp [categorizeProduct, hm, PyVal.truthy, hE]
  · intro l rest hft hcats
    have hct : (PyVal.vList (.aStr l :: rest)).truthy = true := rfl
    simp [categorizeProduct, hft, hcats, hct]
  · intro hft hct
    simp [categorizeProduct, hft, hct]
  · intro rest h
    have hstep : replaceEnAll ('e' :: 'n' :: ':' :: rest) = replaceEnAll rest := rfl
    rw [hstep, replaceEnAll_eq_self rest h]

/-- C4 amended witness: concrete payloads exercise all three branches — the
`en:breakfast-cereals` main tag, a `categories_tags` fallback and the empty
payload's sentinel — plus the leading-prefix strip. -/
theorem categorize_amended_witness :
    categorizeProduct [("main_category", PyVal.vStr "en:breakfast-cereals".data)]
        = .ok (pyTitle (replaceHyphens (replaceEnAll "en:breakfast-cereals".data)))
    ∧ categorizeProduct [("categories_tags", PyVal.vList [.aStr "en:plant-based-foods".data])]
        = .ok (pyTitle (replaceHyphens (replaceEnAll "en:plant-based-foods".data)))
    ∧ categorizeProduct [] = .ok "Non catégorisé".data
    ∧ categorizeProduct [("main_category", PyVal.vStr "en:breakfast-cereals".data)]
        = .ok "Breakfast Cereals".data
    ∧ replaceEnAll ('e' :: 'n' :: ':' :: "breakfast-cereals".data) = "breakfast-cereals".data := by
  refine ⟨?_, ?_, ?_, by decide, ?_⟩
  · exact (categorize_amended [("main_category", PyVal.vStr "en:breakfast-cereals".data)]).1
      "en:breakfast-cereals".data (by decide) (by decide)
  · exact (categorize_amended
      [("categories_tags", PyVal.vList [.aStr "en:plant-based-foods".data])]).2.1
      "en:plant-based-foods".data [] (by decide) (by decide)
  · exact (categorize_amended []).2.2.1 (by decide) (by decide)
  · exact (categorize_amended []).2.2.2 "breakfast-cereals".data (by decide)

/-- C5: for every raw document and `max_retries ≥ 0` the enrichment returns
a record (it is a total function — exceptions of the try-body are values of
the attempt, never propagated): if the attempt body succeeds the record is
`status="success"` carrying the data; if it raises — deterministically, so
every retry raises too — the record is `status="failed"` with empty data
and the error's kind and message. -/
theorem enrich_never_raises (doc : RawDoc) (n : ℤ) (now : List Char) (hn : 0 ≤ n) :
    ((enrich_product doc n now).status = "success"
       ∨ (enrich_product doc n now).status = "failed")
    ∧ (∀ d, enrichAttempt doc.payload = .ok d →
         enrich_product doc n now = ⟨doc.idStr, "success", some now, d, none⟩)
    ∧ (∀ e, enrichAttempt doc.payload = .error e →
         enrich_product doc n now = ⟨doc.idStr, "failed", some now, [], some e⟩) := by
  have hfuel : (n + 1).toNat ≠ 0 := by omega
  have h := enrichLoop_run doc.idStr doc.payload now (n + 1).toNat hfuel
  refine ⟨?_, ?_, ?_⟩
  · cases hA : enrichAttempt doc.payload with
    | ok d =>
      left
      rw [enrich_product, h.1 d hA]
    | error e =>
      right
      rw [enrich_product, h.2 e hA]
  · intro d hd
    rw [enrich_product, h.1 d hd]
  · intro e he
    rw [enrich_product, h.2 e he]

/-- C5 witness: a document with a numeric nutriscore grade raises
`AttributeError` on every attempt and, with the default `max_retries = 2`,
comes back as a well-formed failed record carrying kind and message. -/
theorem enrich_never_raises_witness :
    (0:ℤ) ≤ 2
    ∧ enrich_product sampleFailDoc 2 sampleNow
        = ⟨"abc123".data, "failed", some sampleNow, [],
           some ⟨"AttributeError", "object has no attribute 'lower'"⟩⟩ := by
  refine ⟨by norm_num, ?_⟩
  have h := enrich_never_raises sampleFailDoc 2 sampleNow (by norm_num)
  exact h.2.2 ⟨"AttributeError", "object has no attribute 'lower'"⟩ (by decide)

/-- C10: a negative `max_retries` empties the retry `range`, so no
enrichment attempt runs and the safety fallback returns the `"pending"`
record: `enriched_at` null, empty data, no error object — a status that is
neither `"success"` nor `"failed"`. -/
theorem enrich_negative_retries (doc : RawDoc) (n : ℤ) (now : List Char) (hn : n < 0) :
    enrich_product doc n now = ⟨doc.idStr, "pending", none, [], none⟩
    ∧ ("pending" : String) ≠ "success" ∧ ("pending" : String) ≠ "failed" := by
  have hfuel : (n + 1).toNat = 0 := by omega
  refine ⟨?_, by decide, by decide⟩
  rw [enrich_product, hfuel]
  rfl

/-- C10 witness: `max_retries = -1` on a perfectly enrichable document. -/
theorem enrich_negative_retries_witness :
    (-1:ℤ) < 0
    ∧ enrich_product sampleSuccessDoc (-1) sampleNow
        = ⟨"abc123".data, "pending", none, [], none⟩ := by
  refine ⟨by norm_num, ?_⟩
  exact (enrich_negative_retries sampleSuccessDoc (-1) sampleNow (by norm_num)).1

/-- C7 counterexample: a concrete successfully-enriched record whose data
carries no `image_url` and no `nutrition` field — the enricher never probes
image candidates nor a nutriments mapping. -/
theorem enriched_no_image_counterexample :
    (enrich_product sampleSuccessDoc 2 sampleNow).status = "success"
    ∧ pyLookup (enrich_product sampleSuccessDoc 2 sampleNow).data "image_url" = none
    ∧ pyLookup (enrich_product sampleSuccessDoc 2 sampleNow).data "nutrition" = none := by
  refine ⟨by decide, by decide, by decide⟩

/-- C7 amended: the data of every successful enriched record consists of
exactly the seven fields `code`, `product_name`, `brands`, `quality_score`,
`category`, `nutriscore_grade`, `nova_group` (in that order); it carries no
`image_url` and no `nutrition` field. -/
theorem enriched_data_fields (doc : RawDoc) (n : ℤ) (now : List Char) (hn : 0 ≤ n)
    (hs : (enrich_product doc n now).status = "success") :
    (enrich_product doc n now).data.map Prod.fst
      = ["code", "product_name", "brands", "quality_score", "category",
         "nutriscore_grade", "nova_group"]
    ∧ pyLookup (enrich_product doc n now).data "image_url" = none
    ∧ pyLookup (enrich_product doc n now).data "nutrition" = none := by
  have hfuel : (n + 1).toNat ≠ 0 := by omega
  cases hA : enrichAttempt doc.payload with
  | error e =>
    have h := (enrichLoop_run doc.idStr doc.payload now _ hfuel).2 e hA
    rw [enrich_product, h] at hs
    have hneq : ("failed" : String) ≠ "success" := by decide
    exact absurd hs hneq
  | ok d =>
    have h := (enrichLoop_run doc.idStr doc.payload now _ hfuel).1 d hA
    rw [enrich_product, h]
    cases hq : calculateQualityScore doc.payload with
    | error e =>
      simp only [enrichAttempt, hq] at hA
      exact Except.noConfusion hA
    | ok q =>
      cases hcat : categorizeProduct doc.payload with
      | error e =>
        simp only [enrichAttempt, hq, hcat] at hA
        exact Except.noConfusion hA
      | ok cat =>
        simp only [enrichAttempt, hq, hcat, Except.ok.injEq] at hA
        subst hA
        exact ⟨rfl, rfl, rfl⟩

/-- C7 amended witness: the amended field list evaluated on a concrete
successful document. -/
theorem enriched_data_fields_witness :
    (0:ℤ) ≤ 2
    ∧ (enrich_product sampleSuccessDoc 2 sampleNow).status = "success"
    ∧ (enrich_product sampleSuccessDoc 2 sampleNow).data.map Prod.fst
        = ["code", "product_name", "brands", "quality_score", "category",
           "nutriscore_grade", "nova_group"] := by
  refine ⟨by norm_num, by decide, ?_⟩
  exact (enriched_data_fields sampleSuccessDoc 2 sampleNow (by norm_num) (by decide)).1

/-! ## Claim theorems — ETL engine (per-record skip and transactionality) -/

/-- C9: a record whose `data.code` is absent or the empty string is skipped:
`_load_product` returns `false` and stages nothing (the state is returned
untouched), and a run over such a record succeeds, counting it as
not-loaded. -/
theorem load_skips_missing_code (s : ETLState) (rec : EnrichedRecord) (t : Nat) (db : DB)
    (h : pyLookup rec.data "code" = none ∨ pyLookup rec.data "code" = some (.vStr [])) :
    loadProduct s rec t = .ok (s, false)
    ∧ runModel db [rec] t = (.ok 0, db, true) := by
  have hcode : (pyGet rec.data "code").truthy = false := by
    rcases h with h | h <;> simp [pyGet, pyGetD, h, PyVal.truthy]
  constructor
  · simp [loadProduct, hcode]
  · have h1 : loadProduct ⟨db, [], []⟩ rec t = .ok (⟨db, [], []⟩, false) := by
      simp [loadProduct, hcode]
    simp [runModel, runFold, h1]

/-- C9 witness: a concrete record with no `code` field, loaded into a fresh
store. -/
theorem load_skips_missing_code_witness :
    (pyLookup recNoCode.data "code" = none ∨ pyLookup recNoCode.data "code" = some (.vStr []))
    ∧ runModel emptyDB [recNoCode] 0 = (.ok 0, emptyDB, true) := by
  have h : pyLookup recNoCode.data "code" = none := by decide
  exact ⟨Or.inl h,
    (load_skips_missing_code ⟨emptyDB, [], []⟩ recNoCode 0 emptyDB (Or.inl h)).2⟩

/-- C2: `run()` is transactional — the session is always closed; if the load
loop raises, the raised error is propagated unchanged and the durable store
is exactly the pre-run store (no partial write survives); if the loop
completes, the staged session state is committed once, after the full
batch. -/
theorem run_transactional (db : DB) (batch : List EnrichedRecord) (t : Nat) :
    (runModel db batch t).2.2 = true
    ∧ (∀ e, runFold t ⟨db, [], []⟩ batch = .error e →
         runModel db batch t = (.error e, db, true))
    ∧ (∀ s n, runFold t ⟨db, [], []⟩ batch = .ok (s, n) →
         runModel db batch t = (.ok n, s.db, true)) := by
  refine ⟨?_, ?_, ?_⟩
  · cases hF : runFold t ⟨db, [], []⟩ batch with
    | ok p => simp [runModel, hF]
    | error e => simp [runModel, hF]
  · intro e hF
    simp [runModel, hF]
  · intro s n hF
    simp [runModel, hF]

/-- C2 witness: a batch whose first record loads (staging one product, one
brand, one category) and whose second raises `TypeError`; the run reports
the error and leaves the durable store untouched by the staged prefix. -/
theorem run_transactional_witness :
    runFold 7 ⟨emptyDB, [], []⟩ [recGood, recBad]
        = .error ⟨"TypeError", "object is not subscriptable"⟩
    ∧ runModel emptyDB [recGood, recBad] 7
        = (.error ⟨"TypeError", "object is not subscriptable"⟩, emptyDB, true) := by
  have hF : runFold 7 ⟨emptyDB, [], []⟩ [recGood, recBad]
      = .error ⟨"TypeError", "object is not subscriptable"⟩ := by decide
  exact ⟨hF, (run_transactional emptyDB [recGood, recBad] 7).2.1 _ hF⟩

/-! ## List-level helper lemmas for the load-engine proofs -/

theorem find?_append_some {α : Type} (p : α → Bool) (l₁ l₂ : List α) (b : α)
    (h : l₁.find? p = some b) : (l₁ ++ l₂).find? p = some b := by
  induction l₁ with
  | nil => simp [List.find?] at h
  | cons a l ih =>
    rw [List.cons_append]
    rw [List.find?] at h ⊢
    cases hp : p a with
    | true => rw [hp] at h; exact h
    | false => rw [hp] at h; exact ih h

theorem find?_append_none {α : Type} (p : α → Bool) (l₁ l₂ : List α)
    (h : l₁.find? p = none) : (l₁ ++ l₂).find? p = l₂.find? p := by
  induction l₁ with
  | nil => simp
  | cons a l ih =>
    rw [List.find?] at h
    cases hp : p a with
    | true => rw [hp] at h; exact absurd h (by simp)
    | false =>
      rw [hp] at h
      rw [List.cons_append, List.find?, hp]
      exact ih h

theorem find?_map_eq {α β : Type} [DecidableEq β] (f : α → β) (l : List α) (b : α) (n : β)
    (hn : (l.map f).Nodup) (hb : b ∈ l) (hf : f b = n) :
    l.find? (fun x => f x = n) = some b := by
  induction l with
  | nil => exact absurd hb (by simp)
  | cons a l ih =>
    rw [List.map_cons, List.nodup_cons] at hn
    rw [List.find?]
    by_cases hp : f a = n
    · have hb' : b = a := by
        rcases List.mem_cons.mp hb with h | h
        · exact h
        · exact absurd (List.mem_map_of_mem f h) (by rw [hf, ← hp]; exact hn.1)
      rw [show (decide (f a = n)) = true by simp [hp], hb']
    · have hb' : b ∈ l := by
        rcases List.mem_cons.mp hb with h | h
        · exact absurd (h ▸ hf) hp
        · exact h
      rw [show (decide (f a = n)) = false by simp [hp]]
      exact ih hn.2 hb'

theorem eq_of_mem_of_nodup_map {α β : Type} (f : α → β) (l : List α) (a b : α)
    (hn : (l.map f).Nodup) (ha : a ∈ l) (hb : b ∈ l) (hf : f a = f b) : a = b :=
  List.inj_on_of_nodup_map hn ha hb hf

theorem lastWrite_append (l₁ l₂ : List EnrichedRecord) (c : PyVal) :
    lastWrite (l₁ ++ l₂) c =
      (match lastWrite l₂ c with
       | some x => some x
       | none => lastWrite l₁ c) := by
  induction l₁ with
  | nil =>
    rw [List.nil_append]
    cases lastWrite l₂ c <;> simp [lastWrite]
  | cons r l ih =>
    rw [List.cons_append, lastWrite, ih, lastWrite]
    cases lastWrite l₂ c <;> cases lastWrite l c <;> simp

theorem lastWrite_suffix_some (s B : List EnrichedRecord) (c : PyVal) (x : EnrichedRecord)
    (hs : s <:+ B) (hx : lastWrite s c = some x) : lastWrite B c = some x := by
  obtain ⟨pre, rfl⟩ := hs
  rw [lastWrite_append, hx]

theorem lastWrite_cons_of_not_written (r : EnrichedRecord) (rs : List EnrichedRecord)
    (c : PyVal) (h : ¬ ((recCode r).truthy = true ∧ recCode r = c)) :
    lastWrite (r :: rs) c = lastWrite rs c := by
  rw [lastWrite]
  cases lastWrite rs c with
  | some x => rfl
  | none => simp [h]

theorem lastWrite_cons_none (r : EnrichedRecord) (rs : List EnrichedRecord) (c : PyVal)
    (h : lastWrite (r :: rs) c = none) :
    lastWrite rs c = none ∧ ¬ ((recCode r).truthy = true ∧ recCode r = c) := by
  rw [lastWrite] at h
  cases hrs : lastWrite rs c with
  | some x => rw [hrs] at h; exact absurd h (by simp)
  | none =>
    rw [hrs] at h
    constructor
    · rfl
    · intro hw
      rw [if_pos hw] at h
      exact Option.noConfusion h

theorem brandIdFor_congr (d1 d2 : DB) (n : List Char) (h : d1.brands = d2.brands) :
    brandIdFor d1 n = brandIdFor d2 n := by
  simp [brandIdFor, h]

theorem categoryIdFor_congr (d1 d2 : DB) (n : List Char) (h : d1.categories = d2.categories) :
    categoryIdFor d1 n = categoryIdFor d2 n := by
  simp [categoryIdFor, h]

theorem resolvedBrandId_congr (d1 d2 : DB) (v : PyVal) (h : d1.brands = d2.brands) :
    resolvedBrandId d1 v = resolvedBrandId d2 v := by
  cases v <;> simp [resolvedBrandId, brandIdFor, h]

theorem resolvedCategoryId_congr (d1 d2 : DB) (v : PyVal) (h : d1.categories = d2.categories) :
    resolvedCategoryId d1 v = resolvedCategoryId d2 v := by
  cases v <;> simp [resolvedCategoryId, categoryIdFor, h]

theorem pySlice_ok_eq (v w : PyVal) (n : Nat) (h : pySlice v n = .ok w) :
    w = sliceD v n := by
  cases v with
  | vStr l => simp only [pySlice] at h; injection h with h; rw [← h]; rfl
  | vList l => simp only [pySlice] at h; injection h with h; rw [← h]; rfl
  | vNull => exact absurd h (by simp [pySlice])
  | vNum q => exact absurd h (by simp [pySlice])

theorem resolveBrandDB_spec (db : DB) (n : List Char)
    (hn : (brandNames db).Nodup) (hid : ∀ b ∈ db.brands, b.id < db.nextBrandId) :
    (resolveBrandDB db n).1.categories = db.categories
    ∧ (resolveBrandDB db n).1.products = db.products
    ∧ (resolveBrandDB db n).1.nextCategoryId = db.nextCategoryId
    ∧ (resolveBrandDB db n).1.nextProductId = db.nextProductId
    ∧ (∃ ext, (resolveBrandDB db n).1.brands = db.brands ++ ext)
    ∧ (brandNames (resolveBrandDB db n).1).Nodup
    ∧ (∀ b ∈ (resolveBrandDB db n).1.brands, b.id < (resolveBrandDB db n).1.nextBrandId)
    ∧ brandIdFor (resolveBrandDB db n).1 n = some (resolveBrandDB db n).2
    ∧ n ∈ brandNames (resolveBrandDB db n).1
    ∧ (n ∈ brandNames db → (resolveBrandDB db n).1 = db) := by
  unfold resolveBrandDB
  cases hF : db.brands.find? (fun b => b.name = n) with
  | some b =>
    have hmem : b ∈ db.brands := List.mem_of_find?_eq_some hF
    have hname : b.name = n := by
      have := List.find?_some hF
      exact of_decide_eq_true this
    refine ⟨rfl, rfl, rfl, rfl, ⟨[], by simp⟩, hn, hid, ?_, ?_, fun _ => rfl⟩
    · simp [brandIdFor, hF]
    · exact hname ▸ List.mem_map_of_mem (·.name) hmem
  | none =>
    have hnotin : n ∉ brandNames db := by
      intro hmem
      obtain ⟨b, hb, hbn⟩ := List.mem_map.mp hmem
      have := List.find?_eq_none.mp hF b hb
      simp [hbn] at this
    refine ⟨rfl, rfl, rfl, rfl, ⟨[⟨db.nextBrandId, n⟩], rfl⟩, ?_, ?_, ?_, ?_, ?_⟩
    · show ((db.brands ++ [(⟨db.nextBrandId, n⟩ : BrandRow)]).map (fun b => b.name)).Nodup
      rw [List.map_append]
      rw [List.nodup_append]
      refine ⟨hn, by simp, fun a ha hmem => ?_⟩
      have ha2 : a = n := by simpa using hmem
      exact hnotin (ha2 ▸ ha)
    · intro b hb
      rcases List.mem_append.mp hb with h | h
      · exact Nat.lt_succ_of_lt (hid b h)
      · simp at h
        rw [h]
        exact Nat.lt_succ_self _
    · show brandIdFor { db with brands := _, nextBrandId := _ } n = _
      unfold brandIdFor
      have h1 : (db.brands ++ [(⟨db.nextBrandId, n⟩ : BrandRow)]).find? (fun b => b.name = n)
          = some ⟨db.nextBrandId, n⟩ := by
        rw [find?_append_none _ _ _ hF]
        simp [List.find?]
      simp [h1]
    · show n ∈ ((db.brands ++ [(⟨db.nextBrandId, n⟩ : BrandRow)]).map (fun b => b.name))
      rw [List.map_append]
      simp
    · intro hmem
      exact absurd hmem hnotin

theorem resolveCategoryDB_spec (db : DB) (n : List Char)
    (hn : (categoryNames db).Nodup) (hid : ∀ c ∈ db.categories, c.id < db.nextCategoryId) :
    (resolveCategoryDB db n).1.brands = db.brands
    ∧ (resolveCategoryDB db n).1.products = db.products
    ∧ (resolveCategoryDB db n).1.nextBrandId = db.nextBrandId
    ∧ (resolveCategoryDB db n).1.nextProductId = db.nextProductId
    ∧ (∃ ext, (resolveCategoryDB db n).1.categories = db.categories ++ ext)
    ∧ (categoryNames (resolveCategoryDB db n).1).Nodup
    ∧ (∀ c ∈ (resolveCategoryDB db n).1.categories, c.id < (resolveCategoryDB db n).1.nextCategoryId)
    ∧ categoryIdFor (resolveCategoryDB db n).1 n = some (resolveCategoryDB db n).2
    ∧ n ∈ categoryNames (resolveCategoryDB db n).1
    ∧ (n ∈ categoryNames db → (resolveCategoryDB db n).1 = db) := by
  unfold resolveCategoryDB
  cases hF : db.categories.find? (fun c => c.name = n) with
  | some c =>
    have hmem : c ∈ db.categories := List.mem_of_find?_eq_some hF
    have hname : c.name = n := by
      have := List.find?_some hF
      exact of_decide_eq_true this
    refine ⟨rfl, rfl, rfl, rfl, ⟨[], by simp⟩, hn, hid, ?_, ?_, fun _ => rfl⟩
    · simp [categoryIdFor, hF]
    · exact hname ▸ List.mem_map_of_mem (·.name) hmem
  | none =>
    have hnotin : n ∉ categoryNames db := by
      intro hmem
      obtain ⟨c, hc, hcn⟩ := List.mem_map.mp hmem
      have := List.find?_eq_none.mp hF c hc
      simp [hcn] at this
    refine ⟨rfl, rfl, rfl, rfl, ⟨[⟨db.nextCategoryId, n⟩], rfl⟩, ?_, ?_, ?_, ?_, ?_⟩
    · show ((db.categories ++ [(⟨db.nextCategoryId, n⟩ : CategoryRow)]).map (fun c => c.name)).Nodup
      rw [List.map_append]
      rw [List.nodup_append]
      refine ⟨hn, by simp, fun a ha hmem => ?_⟩
      have ha2 : a = n := by simpa using hmem
      exact hnotin (ha2 ▸ ha)
    · intro c hc
      rcases List.mem_append.mp hc with h | h
      · exact Nat.lt_succ_of_lt (hid c h)
      · simp at h
        rw [h]
        exact Nat.lt_succ_self _
    · show categoryIdFor { db with categories := _, nextCategoryId := _ } n = _
      unfold categoryIdFor
      have h1 : (db.categories ++ [(⟨db.nextCategoryId, n⟩ : CategoryRow)]).find? (fun c => c.name = n)
          = some ⟨db.nextCategoryId, n⟩ := by
        rw [find?_append_none _ _ _ hF]
        simp [List.find?]
      simp [h1]
    · show n ∈ ((db.categories ++ [(⟨db.nextCategoryId, n⟩ : CategoryRow)]).map (fun c => c.name))
      rw [List.map_append]
      simp
    · intro hmem
      exact absurd hmem hnotin

theorem resolveBrandE_ok_inversion (db : DB) (v : PyVal) (db1 : DB) (r : Option Nat)
    (hn : (brandNames db).Nodup) (hid : ∀ b ∈ db.brands, b.id < db.nextBrandId)
    (h : resolveBrandE db v = .ok (db1, r)) :
    db1.categories = db.categories ∧ db1.products = db.products
    ∧ db1.nextCategoryId = db.nextCategoryId ∧ db1.nextProductId = db.nextProductId
    ∧ (∃ ext, db1.brands = db.brands ++ ext)
    ∧ (brandNames db1).Nodup ∧ (∀ b ∈ db1.brands, b.id < db1.nextBrandId)
    ∧ resolvedBrandId db1 v = r
    ∧ ((v.truthy = false ∧ db1 = db ∧ r = none)
       ∨ (∃ raw, v = .vStr raw ∧ v.truthy = true
           ∧ (pyStrip raw).take 255 ∈ brandNames db1)) := by
  unfold resolveBrandE at h
  split at h
  · rename_i htr
    injection h with h
    injection h with h1 h2
    rw [← h1, ← h2]
    refine ⟨rfl, rfl, rfl, rfl, ⟨[], by simp⟩, hn, hid, ?_, Or.inl ⟨htr, rfl, rfl⟩⟩
    simp [resolvedBrandId, htr]
  · rename_i htr
    have htr' : v.truthy = true := by
      revert htr
      cases v.truthy <;> simp
    split at h
    · rename_i raw
      injection h with h
      injection h with h1 h2
      have hs := resolveBrandDB_spec db ((pyStrip raw).take 255) hn hid
      rw [← h1, ← h2]
      refine ⟨hs.1, hs.2.1, hs.2.2.1, hs.2.2.2.1, hs.2.2.2.2.1, hs.2.2.2.2.2.1,
        hs.2.2.2.2.2.2.1, ?_, Or.inr ⟨raw, rfl, htr', hs.2.2.2.2.2.2.2.2.1⟩⟩
      simp only [resolvedBrandId, htr']
      simpa using hs.2.2.2.2.2.2.2.1
    · exact Except.noConfusion h

theorem resolveCategoryE_ok_inversion (db : DB) (v : PyVal) (db1 : DB) (r : Option Nat)
    (hn : (categoryNames db).Nodup) (hid : ∀ c ∈ db.categories, c.id < db.nextCategoryId)
    (h : resolveCategoryE db v = .ok (db1, r)) :
    db1.brands = db.brands ∧ db1.products = db.products
    ∧ db1.nextBrandId = db.nextBrandId ∧ db1.nextProductId = db.nextProductId
    ∧ (∃ ext, db1.categories = db.categories ++ ext)
    ∧ (categoryNames db1).Nodup ∧ (∀ c ∈ db1.categories, c.id < db1.nextCategoryId)
    ∧ resolvedCategoryId db1 v = r
    ∧ ((v.truthy = false ∧ db1 = db ∧ r = none)
       ∨ (∃ raw, v = .vStr raw ∧ v.truthy = true
           ∧ (pyStrip raw).take 255 ∈ categoryNames db1)) := by
  unfold resolveCategoryE at h
  split at h
  · rename_i htr
    injection h with h
    injection h with h1 h2
    rw [← h1, ← h2]
    refine ⟨rfl, rfl, rfl, rfl, ⟨[], by simp⟩, hn, hid, ?_, Or.inl ⟨htr, rfl, rfl⟩⟩
    simp [resolvedCategoryId, htr]
  · rename_i htr
    have htr' : v.truthy = true := by
      revert htr
      cases v.truthy <;> simp
    split at h
    · rename_i raw
      injection h with h
      injection h with h1 h2
      have hs := resolveCategoryDB_spec db ((pyStrip raw).take 255) hn hid
      rw [← h1, ← h2]
      refine ⟨hs.1, hs.2.1, hs.2.2.1, hs.2.2.2.1, hs.2.2.2.2.1, hs.2.2.2.2.2.1,
        hs.2.2.2.2.2.2.1, ?_, Or.inr ⟨raw, rfl, htr', hs.2.2.2.2.2.2.2.2.1⟩⟩
      simp only [resolvedCategoryId, htr']
      simpa using hs.2.2.2.2.2.2.2.1
    · exact Except.noConfusion h

theorem map_eq_map_of_eq_on {α β : Type} (f g : α → β) (l : List α)
    (h : ∀ a ∈ l, f a = g a) : l.map f = l.map g := by
  induction l with
  | nil => rfl
  | cons a l ih =>
    rw [List.map_cons, List.map_cons, h a (by simp), ih (fun x hx => h x (by simp [hx]))]

theorem proj_map_eq {β : Type} (f : ProductRow → ProductRow) (g : ProductRow → β)
    (l : List ProductRow) (hf : ∀ x, g (f x) = g x) : (l.map f).map g = l.map g := by
  rw [List.map_map]
  exact map_eq_map_of_eq_on _ _ l (fun a _ => hf a)

theorem bool_true_of_not_false {x : Bool} (h : ¬ (x = false)) : x = true := by
  revert h
  cases x <;> simp

theorem loadDB_ok_inversion (db : DB) (rec : EnrichedRecord) (t : Nat) (db' : DB) (b : Bool)
    (hInv : DBInv db) (h : loadDB db rec t = .ok (db', b)) :
    DBInv db'
    ∧ (∃ extB, db'.brands = db.brands ++ extB)
    ∧ (∃ extC, db'.categories = db.categories ++ extC)
    ∧ docOK rec
    ∧ (((recCode rec).truthy = false ∧ b = false ∧ db' = db)
       ∨ ((recCode rec).truthy = true ∧ b = true
          ∧ (∀ raw, pyGetD rec.data "brands" (.vStr []) = .vStr raw →
               (pyGetD rec.data "brands" (.vStr [])).truthy = true →
               (pyStrip raw).take 255 ∈ brandNames db')
          ∧ (∀ raw, pyGetD rec.data "category" (.vStr []) = .vStr raw →
               (pyGetD rec.data "category" (.vStr [])).truthy = true →
               (pyStrip raw).take 255 ∈ categoryNames db')
          ∧ ((∃ pE, db.products.find? (fun x => x.code = recCode rec) = some pE
                ∧ db'.products
                    = db.products.map (fun x => if x.id = pE.id then updRow x rec db' else x)
                ∧ db'.nextProductId = db.nextProductId)
             ∨ (db.products.find? (fun x => x.code = recCode rec) = none
                ∧ db'.products = db.products ++ [newRowFor rec db' db.nextProductId t]
                ∧ db'.nextProductId = db.nextProductId + 1)))) := by
  obtain ⟨hbN, hbI, hcN, hcI, hpC, hpI, hpIds⟩ := hInv
  have hrc : recCode rec = pyGet rec.data "code" := rfl
  simp only [loadDB] at h
  split at h
  · rename_i hcode
    simp only [Except.ok.injEq, Prod.mk.injEq] at h
    obtain ⟨h1, h2⟩ := h
    rw [← h1, ← h2]
    refine ⟨⟨hbN, hbI, hcN, hcI, hpC, hpI, hpIds⟩, ⟨[], by simp⟩, ⟨[], by simp⟩, ?_, ?_⟩
    · unfold docOK
      intro htr
      rw [hrc, hcode] at htr
      exact absurd htr (by simp)
    · exact Or.inl ⟨by rw [hrc]; exact hcode, rfl, rfl⟩
  · rename_i hcode
    have hcode' : (recCode rec).truthy = true := by
      rw [hrc]
      exact bool_true_of_not_false hcode
    split at h
    · -- update path: an existing row was found
      rename_i pE hfind
      split at h
      case h_1 e heq => exact Except.noConfusion h
      case h_2 pname hpn =>
      split at h
      case h_1 e heq => exact Except.noConfusion h
      case h_2 grade hgr =>
      split at h
      case h_1 e heq => exact Except.noConfusion h
      case h_2 res1 db1 bid hB =>
      split at h
      case h_1 e heq => exact Except.noConfusion h
      case h_2 res2 db2 cid hC =>
      simp only [Except.ok.injEq, Prod.mk.injEq] at h
      obtain ⟨h1, h2⟩ := h
      obtain ⟨hB1, hB2, hB3, hB4, ⟨extB, hBext⟩, hBN, hBI, hBres, hBalt⟩ :=
        resolveBrandE_ok_inversion db _ db1 bid hbN hbI hB
      have hcN1 : (categoryNames db1).Nodup := by
        have : categoryNames db1 = categoryNames db := by simp [categoryNames, hB1]
        rw [this]; exact hcN
      have hcI1 : ∀ c ∈ db1.categories, c.id < db1.nextCategoryId := by
        rw [hB1, hB3]; exact hcI
      obtain ⟨hC1, hC2, hC3, hC4, ⟨extC, hCext⟩, hCN, hCI, hCres, hCalt⟩ :=
        resolveCategoryE_ok_inversion db1 _ db2 cid hcN1 hcI1 hC
      -- the committed state
      have hS : db' = { db2 with products := db2.products.map (fun p =>
          if p.id = pE.id then
            { p with product_name := pname, nutriscore_grade := grade,
                     nova_group := pyGet rec.data "nova_group",
                     quality_score := pyGet rec.data "quality_score",
                     brand_id := bid, category_id := cid }
          else p) } := h1.symm
      have hprods2 : db2.products = db.products := by rw [hC2, hB2]
      have hSbrands : db'.brands = db1.brands := by rw [hS]; exact hC1
      have hScats : db'.categories = db2.categories := by rw [hS]
      -- the row rewrite is exactly updRow resolved against the final state
      have hbid : resolvedBrandId db' (pyGetD rec.data "brands" (.vStr [])) = bid := by
        rw [resolvedBrandId_congr db' db1 _ hSbrands]
        exact hBres
      have hcid : resolvedCategoryId db' (pyGetD rec.data "category" (.vStr [])) = cid := by
        rw [resolvedCategoryId_congr db' db2 _ hScats]
        exact hCres
      have hrow : ∀ x ∈ db.products,
          (if x.id = pE.id then
            { x with product_name := pname, nutriscore_grade := grade,
                     nova_group := pyGet rec.data "nova_group",
                     quality_score := pyGet rec.data "quality_score",
                     brand_id := bid, category_id := cid }
          else x) = (if x.id = pE.id then updRow x rec db' else x) := by
        intro x _
        by_cases hx : x.id = pE.id
        · rw [if_pos hx, if_pos hx]
          unfold updRow
          rw [pySlice_ok_eq _ _ _ hpn, pySlice_ok_eq _ _ _ hgr, hbid, hcid]
        · rw [if_neg hx, if_neg hx]
      have hSprods : db'.products
          = db.products.map (fun x => if x.id = pE.id then updRow x rec db' else x) := by
        conv_lhs => rw [hS]
        show db2.products.map _ = _
        rw [hprods2]
        exact map_eq_map_of_eq_on _ _ _ hrow
      have hcodes : productCodes db' = productCodes db := by
        rw [show productCodes db' = db'.products.map (·.code) from rfl, hSprods]
        refine proj_map_eq _ _ _ ?_
        intro x
        by_cases hx : x.id = pE.id
        · rw [if_pos hx]; rfl
        · rw [if_neg hx]
      have hids : productIds db' = productIds db := by
        rw [show productIds db' = db'.products.map (·.id) from rfl, hSprods]
        refine proj_map_eq _ _ _ ?_
        intro x
        by_cases hx : x.id = pE.id
        · rw [if_pos hx]; rfl
        · rw [if_neg hx]
      have hnextP : db'.nextProductId = db.nextProductId := by
        rw [hS]
        show db2.nextProductId = db.nextProductId
        rw [hC4, hB4]
      refine ⟨?_, ?_, ?_, ?_, ?_⟩
      · refine ⟨?_, ?_, ?_, ?_, ?_, ?_, ?_⟩
        · rw [show brandNames db' = db'.brands.map (·.name) from rfl, hSbrands]
          exact hBN
        · rw [hSbrands]
          have : db'.nextBrandId = db1.nextBrandId := by rw [hS]; exact hC3
          rw [this]
          exact hBI
        · rw [show categoryNames db' = db'.categories.map (·.name) from rfl, hScats]
          exact hCN
        · rw [hScats]
          have : db'.nextCategoryId = db2.nextCategoryId := by rw [hS]
          rw [this]
          exact hCI
        · rw [hcodes]; exact hpC
        · intro p hp
          rw [hSprods] at hp
          obtain ⟨x, hx, hfx⟩ := List.mem_map.mp hp
          have : p.id = x.id := by
            rw [← hfx]
            by_cases hxx : x.id = pE.id
            · rw [if_pos hxx]; rfl
            · rw [if_neg hxx]
          rw [this, hnextP]
          exact hpI x hx
        · rw [hids]; exact hpIds
      · exact ⟨extB, by rw [hSbrands, hBext]⟩
      · exact ⟨extC, by rw [hScats, hCext, hB1]⟩
      · unfold docOK
        intro _
        refine ⟨⟨pname, hpn⟩, ⟨grade, hgr⟩, ?_, ?_⟩
        · intro htr
          rcases hBalt with ⟨hf, _, _⟩ | ⟨raw', hv, _, _⟩
          · rw [htr] at hf; exact Bool.noConfusion hf
          · exact ⟨raw', hv⟩
        · intro htr
          rcases hCalt with ⟨hf, _, _⟩ | ⟨raw', hv, _, _⟩
          · rw [htr] at hf; exact Bool.noConfusion hf
          · exact ⟨raw', hv⟩
      · refine Or.inr ⟨hcode', h2.symm, ?_, ?_, Or.inl ⟨pE, hfind, hSprods, hnextP⟩⟩
        · intro raw hraw htr
          rcases hBalt with ⟨hf, _, _⟩ | ⟨raw', hv, htv, hmem⟩
          · rw [hraw] at hf htr; rw [htr] at hf; exact Bool.noConfusion hf
          · rw [hraw] at hv
            injection hv with hv
            have hbn2 : brandNames db' = brandNames db1 := by simp [brandNames, hSbrands]
            rw [hbn2, hv]
            exact hmem
        · intro raw hraw htr
          rcases hCalt with ⟨hf, _, _⟩ | ⟨raw', hv, htv, hmem⟩
          · rw [hraw] at hf htr; rw [htr] at hf; exact Bool.noConfusion hf
          · rw [hraw] at hv
            injection hv with hv
            have hcn2 : categoryNames db' = categoryNames db2 := by simp [categoryNames, hScats]
            rw [hcn2, hv]
            exact hmem
    · -- create path: no existing row
      rename_i hfind
      split at h
      case h_1 e heq => exact Except.noConfusion h
      case h_2 res1 db1 bid hB =>
      split at h
      case h_1 e heq => exact Except.noConfusion h
      case h_2 res2 db2 cid hC =>
      split at h
      case h_1 e heq => exact Except.noConfusion h
      case h_2 pname hpn =>
      split at h
      case h_1 e heq => exact Except.noConfusion h
      case h_2 grade hgr =>
      simp only [Except.ok.injEq, Prod.mk.injEq] at h
      obtain ⟨h1, h2⟩ := h
      obtain ⟨hB1, hB2, hB3, hB4, ⟨extB, hBext⟩, hBN, hBI, hBres, hBalt⟩ :=
        resolveBrandE_ok_inversion db _ db1 bid hbN hbI hB
      have hcN1 : (categoryNames db1).Nodup := by
        have : categoryNames db1 = categoryNames db := by simp [categoryNames, hB1]
        rw [this]; exact hcN
      have hcI1 : ∀ c ∈ db1.categories, c.id < db1.nextCategoryId := by
        rw [hB1, hB3]; exact hcI
      obtain ⟨hC1, hC2, hC3, hC4, ⟨extC, hCext⟩, hCN, hCI, hCres, hCalt⟩ :=
        resolveCategoryE_ok_inversion db1 _ db2 cid hcN1 hcI1 hC
      have hprods2 : db2.products = db.products := by rw [hC2, hB2]
      have hnext2 : db2.nextProductId = db.nextProductId := by rw [hC4, hB4]
      have hS : db' = { db2 with
          products := db2.products ++
            [⟨db2.nextProductId, pyGet rec.data "code", pname, bid, cid, grade,
              pyGet rec.data "nova_group", pyGet rec.data "quality_score", t⟩],
          nextProductId := db2.nextProductId + 1 } := h1.symm
      have hSbrands : db'.brands = db1.brands := by rw [hS]; exact hC1
      have hScats : db'.categories = db2.categories := by rw [hS]
      have hbid : resolvedBrandId db' (pyGetD rec.data "brands" (.vStr [])) = bid := by
        rw [resolvedBrandId_congr db' db1 _ hSbrands]
        exact hBres
      have hcid : resolvedCategoryId db' (pyGetD rec.data "category" (.vStr [])) = cid := by
        rw [resolvedCategoryId_congr db' db2 _ hScats]
        exact hCres
      have hnew : (⟨db2.nextProductId, pyGet rec.data "code", pname, bid, cid, grade,
            pyGet rec.data "nova_group", pyGet rec.data "quality_score", t⟩ : ProductRow)
          = newRowFor rec db' db.nextProductId t := by
        unfold newRowFor updRow
        rw [pySlice_ok_eq _ _ _ hpn, pySlice_ok_eq _ _ _ hgr, hbid, hcid, hnext2, hrc]
      have hSprods : db'.products = db.products ++ [newRowFor rec db' db.nextProductId t] := by
        conv_lhs => rw [hS]
        show db2.products ++ _ = _
        rw [hprods2, hnew]
      have hnotin : recCode rec ∉ productCodes db := by
        intro hmem
        obtain ⟨p, hp, hpc⟩ := List.mem_map.mp hmem
        have := List.find?_eq_none.mp hfind p hp
        rw [hrc] at hpc
        simp [hpc] at this
      refine ⟨?_, ?_, ?_, ?_, ?_⟩
      · refine ⟨?_, ?_, ?_, ?_, ?_, ?_, ?_⟩
        · rw [show brandNames db' = db'.brands.map (·.name) from rfl, hSbrands]
          exact hBN
        · rw [hSbrands]
          have : db'.nextBrandId = db1.nextBrandId := by rw [hS]; exact hC3
          rw [this]
          exact hBI
        · rw [show categoryNames db' = db'.categories.map (·.name) from rfl, hScats]
          exact hCN
        · rw [hScats]
          have : db'.nextCategoryId = db2.nextCategoryId := by rw [hS]
          rw [this]
          exact hCI
        · rw [show productCodes db' = db'.products.map (·.code) from rfl, hSprods,
              List.map_append]
          rw [List.nodup_append]
          refine ⟨hpC, by simp, fun a ha hmem => ?_⟩
          have ha2 : a = (newRowFor rec db' db.nextProductId t).code := by simpa using hmem
          have hcd : (newRowFor rec db' db.nextProductId t).code = recCode rec := rfl
          rw [ha2, hcd] at ha
          exact hnotin ha
        · intro p hp
          rw [hSprods] at hp
          have hnext' : db'.nextProductId = db.nextProductId + 1 := by
            rw [hS]
            show db2.nextProductId + 1 = _
            rw [hnext2]
          rw [hnext']
          rcases List.mem_append.mp hp with hmem | hmem
          · exact Nat.lt_succ_of_lt (hpI p hmem)
          · have : p = newRowFor rec db' db.nextProductId t := by simpa using hmem
            rw [this]
            exact Nat.lt_succ_self _
        · rw [show productIds db' = db'.products.map (·.id) from rfl, hSprods,
              List.map_append]
          rw [List.nodup_append]
          refine ⟨hpIds, by simp, fun a ha hmem => ?_⟩
          have ha2 : a = (newRowFor rec db' db.nextProductId t).id := by simpa using hmem
          have hid : (newRowFor rec db' db.nextProductId t).id = db.nextProductId := rfl
          rw [ha2, hid] at ha
          obtain ⟨p, hp, hpid⟩ := List.mem_map.mp ha
          have := hpI p hp
          rw [hpid] at this
          exact absurd this (by omega)
      · exact ⟨extB, by rw [hSbrands, hBext]⟩
      · exact ⟨extC, by rw [hScats, hCext, hB1]⟩
      · unfold docOK
        intro _
        refine ⟨⟨pname, hpn⟩, ⟨grade, hgr⟩, ?_, ?_⟩
        · intro htr
          rcases hBalt with ⟨hf, _, _⟩ | ⟨raw', hv, _, _⟩
          · rw [htr] at hf; exact Bool.noConfusion hf
          · exact ⟨raw', hv⟩
        · intro htr
          rcases hCalt with ⟨hf, _, _⟩ | ⟨raw', hv, _, _⟩
          · rw [htr] at hf; exact Bool.noConfusion hf
          · exact ⟨raw', hv⟩
      · refine Or.inr ⟨hcode', h2.symm, ?_, ?_, Or.inr ⟨by rw [← hrc] at hfind; exact hfind,
          hSprods, by rw [hS]; show db2.nextProductId + 1 = _; rw [hnext2]⟩⟩
        · intro raw hraw htr
          rcases hBalt with ⟨hf, _, _⟩ | ⟨raw', hv, htv, hmem⟩
          · rw [hraw] at hf htr; rw [htr] at hf; exact Bool.noConfusion hf
          · rw [hraw] at hv
            injection hv with hv
            have hbn2 : brandNames db' = brandNames db1 := by simp [brandNames, hSbrands]
            rw [hbn2, hv]
            exact hmem
        · intro raw hraw htr
          rcases hCalt with ⟨hf, _, _⟩ | ⟨raw', hv, htv, hmem⟩
          · rw [hraw] at hf htr; rw [htr] at hf; exact Bool.noConfusion hf
          · rw [hraw] at hv
            injection hv with hv
            have hcn2 : categoryNames db' = categoryNames db2 := by simp [categoryNames, hScats]
            rw [hcn2, hv]
            exact hmem

theorem loadDB_skip (db : DB) (rec : EnrichedRecord) (t : Nat)
    (h : (recCode rec).truthy = false) : loadDB db rec t = .ok (db, false) := by
  have h' : (pyGet rec.data "code").truthy = false := h
  simp [loadDB, h']

theorem resolveBrandE_ok_of (db : DB) (v : PyVal)
    (hv : v.truthy = true → ∃ raw, v = .vStr raw) :
    ∃ out, resolveBrandE db v = .ok out := by
  by_cases ht : v.truthy = false
  · exact ⟨(db, none), by simp [resolveBrandE, ht]⟩
  · obtain ⟨raw, rfl⟩ := hv (bool_true_of_not_false ht)
    refine ⟨((resolveBrandDB db ((pyStrip raw).take 255)).1,
             some (resolveBrandDB db ((pyStrip raw).take 255)).2), ?_⟩
    rw [resolveBrandE, if_neg ht]

theorem resolveCategoryE_ok_of (db : DB) (v : PyVal)
    (hv : v.truthy = true → ∃ raw, v = .vStr raw) :
    ∃ out, resolveCategoryE db v = .ok out := by
  by_cases ht : v.truthy = false
  · exact ⟨(db, none), by simp [resolveCategoryE, ht]⟩
  · obtain ⟨raw, rfl⟩ := hv (bool_true_of_not_false ht)
    refine ⟨((resolveCategoryDB db ((pyStrip raw).take 255)).1,
             some (resolveCategoryDB db ((pyStrip raw).take 255)).2), ?_⟩
    rw [resolveCategoryE, if_neg ht]

theorem loadDB_ok_of_docOK (db : DB) (rec : EnrichedRecord) (t : Nat)
    (hOK : docOK rec) : ∃ out, loadDB db rec t = .ok out := by
  by_cases hc : (recCode rec).truthy = false
  · exact ⟨(db, false), loadDB_skip db rec t hc⟩
  · have hc2 : ¬ ((pyGet rec.data "code").truthy = false) := hc
    obtain ⟨⟨pname, hpn⟩, ⟨grade, hgr⟩, hbT, hcT⟩ := hOK (bool_true_of_not_false hc)
    obtain ⟨⟨db1, bid⟩, hB⟩ := resolveBrandE_ok_of db _ hbT
    obtain ⟨⟨db2, cid⟩, hC⟩ := resolveCategoryE_ok_of db1 _ hcT
    cases hfind : db.products.find? (fun p => p.code = pyGet rec.data "code") with
    | some pE =>
      refine ⟨({ db2 with products := db2.products.map (fun p =>
          if p.id = pE.id then
            { p with product_name := pname, nutriscore_grade := grade,
                     nova_group := pyGet rec.data "nova_group",
                     quality_score := pyGet rec.data "quality_score",
                     brand_id := bid, category_id := cid }
          else p) }, true), ?_⟩
      simp only [loadDB]
      rw [if_neg hc2]
      simp only [hfind, hpn, hgr, hB, hC]
    | none =>
      refine ⟨({ db2 with
          products := db2.products ++
            [⟨db2.nextProductId, pyGet rec.data "code", pname, bid, cid, grade,
              pyGet rec.data "nova_group", pyGet rec.data "quality_score", t⟩],
          nextProductId := db2.nextProductId + 1 }, true), ?_⟩
      simp only [loadDB]
      rw [if_neg hc2]
      simp only [hfind, hpn, hgr, hB, hC]

theorem foldDB_ok_of_docOK (t : Nat) :
    ∀ (batch : List EnrichedRecord) (db : DB), (∀ r ∈ batch, docOK r) →
      ∃ out, foldDB t db batch = .ok out := by
  intro batch
  induction batch with
  | nil => intro db _; exact ⟨(db, 0), rfl⟩
  | cons r rs ih =>
    intro db hOK
    obtain ⟨⟨db1, b⟩, h1⟩ := loadDB_ok_of_docOK db r t (hOK r (by simp))
    obtain ⟨⟨db2, n⟩, h2⟩ := ih db1 (fun x hx => hOK x (by simp [hx]))
    exact ⟨(db2, if b then n + 1 else n), by simp [foldDB, h1, h2]⟩

theorem updRow_absorb (p : ProductRow) (r1 r2 : EnrichedRecord) (d1 d2 : DB) :
    updRow (updRow p r1 d1) r2 d2 = updRow p r2 d2 := rfl

theorem updRow_db_congr (p : ProductRow) (r : EnrichedRecord) (d1 d2 : DB)
    (hb : resolvedBrandId d1 (pyGetD r.data "brands" (.vStr []))
        = resolvedBrandId d2 (pyGetD r.data "brands" (.vStr [])))
    (hc : resolvedCategoryId d1 (pyGetD r.data "category" (.vStr []))
        = resolvedCategoryId d2 (pyGetD r.data "category" (.vStr []))) :
    updRow p r d1 = updRow p r d2 := by
  unfold updRow
  rw [hb, hc]

theorem resolvedBrandId_falsy (d : DB) (v : PyVal) (h : v.truthy = false) :
    resolvedBrandId d v = none := by
  simp [resolvedBrandId, h]

theorem resolvedCategoryId_falsy (d : DB) (v : PyVal) (h : v.truthy = false) :
    resolvedCategoryId d v = none := by
  simp [resolvedCategoryId, h]

theorem brandIdFor_stable (d D : DB) (ext : List BrandRow) (n : List Char)
    (hD : D.brands = d.brands ++ ext) (hmem : n ∈ brandNames d) :
    brandIdFor D n = brandIdFor d n := by
  obtain ⟨b, hb, hbn⟩ := List.mem_map.mp hmem
  cases hF : d.brands.find? (fun x => x.name = n) with
  | none =>
    have := List.find?_eq_none.mp hF b hb
    simp [hbn] at this
  | some b0 =>
    unfold brandIdFor
    rw [hD, find?_append_some _ _ _ _ hF, hF]

theorem categoryIdFor_stable (d D : DB) (ext : List CategoryRow) (n : List Char)
    (hD : D.categories = d.categories ++ ext) (hmem : n ∈ categoryNames d) :
    categoryIdFor D n = categoryIdFor d n := by
  obtain ⟨c, hc, hcn⟩ := List.mem_map.mp hmem
  cases hF : d.categories.find? (fun x => x.name = n) with
  | none =>
    have := List.find?_eq_none.mp hF c hc
    simp [hcn] at this
  | some c0 =>
    unfold categoryIdFor
    rw [hD, find?_append_some _ _ _ _ hF, hF]

theorem resolvedBrandId_vstr (d : DB) (raw : List Char)
    (h : (PyVal.vStr raw).truthy = true) :
    resolvedBrandId d (.vStr raw) = brandIdFor d ((pyStrip raw).take 255) := by
  simp [resolvedBrandId, h]

theorem resolvedCategoryId_vstr (d : DB) (raw : List Char)
    (h : (PyVal.vStr raw).truthy = true) :
    resolvedCategoryId d (.vStr raw) = categoryIdFor d ((pyStrip raw).take 255) := by
  simp [resolvedCategoryId, h]

theorem foldDB_ok_inversion (t : Nat) :
    ∀ (batch : List EnrichedRecord) (db D : DB) (n : Nat),
      DBInv db → foldDB t db batch = .ok (D, n) →
      DBInv D
      ∧ (∃ extB, D.brands = db.brands ++ extB)
      ∧ (∃ extC, D.categories = db.categories ++ extC)
      ∧ (∀ c, c ∈ productCodes db → c ∈ productCodes D)
      ∧ (∀ p ∈ D.products, lastWrite batch p.code = none → p ∈ db.products)
      ∧ (∀ r ∈ batch, docOK r)
      ∧ Saturated D batch
      ∧ WriteFixed D batch := by
  intro batch
  induction batch with
  | nil =>
    intro db D n hInv h
    simp only [foldDB, Except.ok.injEq, Prod.mk.injEq] at h
    obtain ⟨h1, h2⟩ := h
    rw [← h1]
    refine ⟨hInv, ⟨[], by simp⟩, ⟨[], by simp⟩, fun c hc => hc, fun p hp _ => hp,
      by simp, ?_, ?_⟩
    · unfold Saturated
      intro x hx
      exact absurd hx (by simp)
    · unfold WriteFixed
      intro p hp x hx
      simp [lastWrite] at hx
  | cons r rs ih =>
    intro db D n hInv h
    simp only [foldDB] at h
    split at h
    case h_1 e heq => exact Except.noConfusion h
    case h_2 res1 db1 b hstep =>
    split at h
    case h_1 e heq => exact Except.noConfusion h
    case h_2 res2 D2 m hrest =>
    simp only [Except.ok.injEq, Prod.mk.injEq] at h
    obtain ⟨hD, hn⟩ := h
    rw [hD] at hrest
    obtain ⟨hInv1, ⟨extB1, hB1⟩, ⟨extC1, hC1⟩, hOK1, halt⟩ :=
      loadDB_ok_inversion db r t db1 b hInv hstep
    obtain ⟨hInvD, ⟨extB2, hB2⟩, ⟨extC2, hC2⟩, hcodes2, hunt2, hOK2, hSat2, hWF2⟩ :=
      ih db1 D m hInv1 hrest
    have hbrandD : ∀ nm, nm ∈ brandNames db1 → nm ∈ brandNames D := by
      intro nm hnm
      rw [show brandNames D = D.brands.map (fun x => x.name) from rfl, hB2, List.map_append]
      exact List.mem_append_left _ hnm
    have hcatD : ∀ nm, nm ∈ categoryNames db1 → nm ∈ categoryNames D := by
      intro nm hnm
      rw [show categoryNames D = D.categories.map (fun x => x.name) from rfl, hC2,
          List.map_append]
      exact List.mem_append_left _ hnm
    have hstepFacts :
        (∀ c, c ∈ productCodes db → c ∈ productCodes db1)
        ∧ ((recCode r).truthy = true → recCode r ∈ productCodes db1)
        ∧ (∀ p ∈ db1.products, ¬ ((recCode r).truthy = true ∧ recCode r = p.code) →
             p ∈ db.products)
        ∧ (∀ p ∈ db1.products, ((recCode r).truthy = true ∧ recCode r = p.code) →
             ∃ base, p = updRow base r db1) := by
      rcases halt with ⟨hf, _, hdb⟩ | ⟨htr, _, _, _, hprod⟩
      · rw [hdb]
        refine ⟨fun c hc => hc, fun htr => absurd htr (by simp [hf]), fun p hp _ => hp, ?_⟩
        intro p hp hw
        rw [hf] at hw
        exact absurd hw.1 (by simp)
      · rcases hprod with ⟨pE, hfind, hprods, _⟩ | ⟨hfind, hprods, _⟩
        · have hpEc : pE.code = recCode r := by
            have h1 := List.find?_some hfind
            simpa using h1
          have hpEm : pE ∈ db.products := List.mem_of_find?_eq_some hfind
          have hfcode : ∀ x : ProductRow,
              ((if x.id = pE.id then updRow x r db1 else x).code) = x.code := by
            intro x
            by_cases hx : x.id = pE.id
            · rw [if_pos hx]; rfl
            · rw [if_neg hx]
          have hpc1 : productCodes db1 = productCodes db := by
            rw [show productCodes db1 = db1.products.map (fun x => x.code) from rfl, hprods]
            exact proj_map_eq _ _ _ hfcode
          refine ⟨?_, ?_, ?_, ?_⟩
          · intro c hc
            rw [hpc1]
            exact hc
          · intro _
            rw [hpc1, ← hpEc]
            exact List.mem_map_of_mem (fun x => x.code) hpEm
          · intro p hp hnw
            rw [hprods] at hp
            obtain ⟨x0, hx0, hfx⟩ := List.mem_map.mp hp
            by_cases hx : x0.id = pE.id
            · rw [if_pos hx] at hfx
              have hpcode : p.code = x0.code := by rw [← hfx]; rfl
              have hidsn : (db.products.map (fun z => z.id)).Nodup := hInv.2.2.2.2.2.2
              have hx0eq : x0 = pE :=
                eq_of_mem_of_nodup_map (fun z => z.id) db.products x0 pE hidsn hx0 hpEm hx
              exact absurd ⟨htr, by rw [← hpEc, hpcode, hx0eq]⟩ hnw
            · rw [if_neg hx] at hfx
              rw [← hfx]
              exact hx0
          · intro p hp hw
            rw [hprods] at hp
            obtain ⟨x0, hx0, hfx⟩ := List.mem_map.mp hp
            by_cases hx : x0.id = pE.id
            · rw [if_pos hx] at hfx
              exact ⟨x0, hfx.symm⟩
            · rw [if_neg hx] at hfx
              have hcodesn : (db.products.map (fun z => z.code)).Nodup := hInv.2.2.2.2.1
              have hx0eq : x0 = pE :=
                eq_of_mem_of_nodup_map (fun z => z.code) db.products x0 pE hcodesn hx0 hpEm
                  (by show x0.code = pE.code; rw [hfx, ← hw.2, hpEc])
              exact absurd (hx0eq ▸ hx) (by simp)
        · have hnewc : (newRowFor r db1 db.nextProductId t).code = recCode r := rfl
          refine ⟨?_, ?_, ?_, ?_⟩
          · intro c hc
            rw [show productCodes db1 = db1.products.map (fun x => x.code) from rfl, hprods,
                List.map_append]
            exact List.mem_append_left _ hc
          · intro _
            rw [show productCodes db1 = db1.products.map (fun x => x.code) from rfl, hprods,
                List.map_append]
            refine List.mem_append_right _ ?_
            simp [hnewc]
          · intro p hp hnw
            rw [hprods] at hp
            rcases List.mem_append.mp hp with hmem | hmem
            · exact hmem
            · have hpn : p = newRowFor r db1 db.nextProductId t := by simpa using hmem
              exact absurd ⟨htr, by rw [hpn, hnewc]⟩ hnw
          · intro p hp hw
            rw [hprods] at hp
            rcases List.mem_append.mp hp with hmem | hmem
            · have := List.find?_eq_none.mp hfind p hmem
              rw [← hw.2] at this
              simp at this
            · have hpn : p = newRowFor r db1 db.nextProductId t := by simpa using hmem
              exact ⟨⟨db.nextProductId, recCode r, .vNull, none, none, .vNull, .vNull,
                .vNull, t⟩, by rw [hpn]; rfl⟩
    obtain ⟨hmono1, hpresent1, hunt1, hform1⟩ := hstepFacts
    refine ⟨hInvD, ⟨extB1 ++ extB2, by rw [hB2, hB1, List.append_assoc]⟩,
      ⟨extC1 ++ extC2, by rw [hC2, hC1, List.append_assoc]⟩, ?_, ?_, ?_, ?_, ?_⟩
    · intro c hc
      exact hcodes2 c (hmono1 c hc)
    · intro p hp hlw
      obtain ⟨hlwrs, hnw⟩ := lastWrite_cons_none r rs p.code hlw
      exact hunt1 p (hunt2 p hp hlwrs) hnw
    · intro x hx
      rcases List.mem_cons.mp hx with hx | hx
      · rw [hx]
        exact hOK1
      · exact hOK2 x hx
    · unfold Saturated
      intro x hx htr
      rcases List.mem_cons.mp hx with hx | hx
      · subst hx
        have hkey : recCode x ∈ productCodes D := hcodes2 _ (hpresent1 htr)
        obtain ⟨p, hp, hpc⟩ := List.mem_map.mp hkey
        rcases halt with ⟨hf, _, _⟩ | ⟨_, _, hbn, hcn, _⟩
        · rw [htr] at hf
          exact Bool.noConfusion hf
        · exact ⟨⟨p, hp, hpc⟩, fun raw hraw htrb => hbrandD _ (hbn raw hraw htrb),
            fun raw hraw htrc => hcatD _ (hcn raw hraw htrc)⟩
      · exact hSat2 x hx htr
    · unfold WriteFixed
      intro p hp x hlast
      rw [lastWrite] at hlast
      cases hrs : lastWrite rs p.code with
      | some y =>
        rw [hrs] at hlast
        injection hlast with hxy
        rw [← hxy]
        exact hWF2 p hp y hrs
      | none =>
        rw [hrs] at hlast
        by_cases hw : (recCode r).truthy = true ∧ recCode r = p.code
        · rw [if_pos hw] at hlast
          injection hlast with hxr
          have hp1 : p ∈ db1.products := hunt2 p hp hrs
          obtain ⟨base, hbase⟩ := hform1 p hp1 hw
          have hcongr : updRow base r D = updRow base r db1 := by
            apply updRow_db_congr
            · by_cases hbt : (pyGetD r.data "brands" (.vStr [])).truthy = false
              · rw [resolvedBrandId_falsy _ _ hbt, resolvedBrandId_falsy _ _ hbt]
              · have hbt' := bool_true_of_not_false hbt
                obtain ⟨raw, hraw⟩ := (hOK1 hw.1).2.2.1 hbt'
                rcases halt with ⟨hf, _, _⟩ | ⟨_, _, hbn, _, _⟩
                · rw [hw.1] at hf
                  exact Bool.noConfusion hf
                · have hmem := hbn raw hraw hbt'
                  rw [hraw]
                  have hbtr : (PyVal.vStr raw).truthy = true := by rw [← hraw]; exact hbt'
                  rw [resolvedBrandId_vstr _ _ hbtr, resolvedBrandId_vstr _ _ hbtr]
                  exact brandIdFor_stable db1 D extB2 _ hB2 hmem
            · by_cases hct : (pyGetD r.data "category" (.vStr [])).truthy = false
              · rw [resolvedCategoryId_falsy _ _ hct, resolvedCategoryId_falsy _ _ hct]
              · have hct' := bool_true_of_not_false hct
                obtain ⟨raw, hraw⟩ := (hOK1 hw.1).2.2.2 hct'
                rcases halt with ⟨hf, _, _⟩ | ⟨_, _, _, hcn, _⟩
                · rw [hw.1] at hf
                  exact Bool.noConfusion hf
                · have hmem := hcn raw hraw hct'
                  rw [hraw]
                  have hctr : (PyVal.vStr raw).truthy = true := by rw [← hraw]; exact hct'
                  rw [resolvedCategoryId_vstr _ _ hctr, resolvedCategoryId_vstr _ _ hctr]
                  exact categoryIdFor_stable db1 D extC2 _ hC2 hmem
          rw [← hxr, hbase, updRow_absorb, hcongr]
        · rw [if_neg hw] at hlast
          exact Option.noConfusion hlast

theorem forall2_projections (rest : List EnrichedRecord) (lE lF : List ProductRow)
    (h : List.Forall₂ (rowAgree rest) lE lF) :
    lF.map (fun x => x.id) = lE.map (fun x => x.id)
    ∧ lF.map (fun x => x.code) = lE.map (fun x => x.code)
    ∧ lF.map (fun x => x.created_at) = lE.map (fun x => x.created_at) := by
  induction h with
  | nil => simp
  | cons ha hl ih =>
    refine ⟨?_, ?_, ?_⟩ <;> simp only [List.map_cons]
    · rw [ha.1, ih.1]
    · rw [ha.2.1, ih.2.1]
    · rw [ha.2.2.1, ih.2.2]

theorem agreeExcept_DBInv (E F : DB) (rest : List EnrichedRecord)
    (hInvE : DBInv E) (hA : AgreeExcept E F rest) : DBInv F := by
  obtain ⟨hb, hc, h1, h2, h3, hF2⟩ := hA
  obtain ⟨pid, pcode, _⟩ := forall2_projections _ _ _ hF2
  obtain ⟨i1, i2, i3, i4, i5, i6, i7⟩ := hInvE
  refine ⟨?_, ?_, ?_, ?_, ?_, ?_, ?_⟩
  · rw [show brandNames F = F.brands.map (fun x => x.name) from rfl, hb]
    exact i1
  · rw [hb, h1]
    exact i2
  · rw [show categoryNames F = F.categories.map (fun x => x.name) from rfl, hc]
    exact i3
  · rw [hc, h2]
    exact i4
  · rw [show productCodes F = F.products.map (fun x => x.code) from rfl, pcode]
    exact i5
  · intro p hp
    have : p.id ∈ F.products.map (fun x => x.id) := List.mem_map_of_mem _ hp
    rw [pid] at this
    obtain ⟨q, hq, hqid⟩ := List.mem_map.mp this
    rw [h3, ← hqid]
    exact i6 q hq
  · rw [show productIds F = F.products.map (fun x => x.id) from rfl, pid]
    exact i7

theorem agreeExcept_refl (E : DB) (rest : List EnrichedRecord) : AgreeExcept E E rest := by
  refine ⟨rfl, rfl, rfl, rfl, rfl, ?_⟩
  rw [List.forall₂_same]
  intro x _
  exact ⟨rfl, rfl, rfl, fun _ => rfl⟩

theorem agreeExcept_nil_eq (E F : DB) (hA : AgreeExcept E F []) : F = E := by
  obtain ⟨hb, hc, h1, h2, h3, hF2⟩ := hA
  have hp : F.products = E.products := by
    have : ∀ lE lF, List.Forall₂ (rowAgree []) lE lF → lF = lE := by
      intro lE lF h
      induction h with
      | nil => rfl
      | cons ha hl ih =>
        rw [ih, ha.2.2.2 (by rw [lastWrite])]
    exact this _ _ hF2
  cases E
  cases F
  simp only at hb hc h1 h2 h3 hp
  rw [hb, hc, h1, h2, h3, hp]

theorem forall2_find?_partner (rest : List EnrichedRecord) (lE lF : List ProductRow)
    (c : PyVal) (h : List.Forall₂ (rowAgree rest) lE lF) :
    ∀ pE, lE.find? (fun p => p.code = c) = some pE →
      ∃ pF, lF.find? (fun p => p.code = c) = some pF ∧ rowAgree rest pE pF ∧ pF ∈ lF := by
  induction h with
  | nil => intro pE hpE; simp [List.find?] at hpE
  | cons ha hl ih =>
    rename_i a b lE' lF' 
    intro pE hpE
    rw [List.find?] at hpE ⊢
    have hcode : b.code = a.code := ha.2.1
    by_cases hac : a.code = c
    · rw [show (decide (a.code = c)) = true by simp [hac]] at hpE
      injection hpE with hpE
      rw [show (decide (b.code = c)) = true by simp [hcode, hac]]
      exact ⟨b, rfl, hpE ▸ ha, by simp⟩
    · rw [show (decide (a.code = c)) = false by simp [hac]] at hpE
      rw [show (decide (b.code = c)) = false by simp [hcode, hac]]
      obtain ⟨pF, hfind, hagree, hmem⟩ := ih pE hpE
      exact ⟨pF, hfind, hagree, by simp [hmem]⟩

theorem forall2_rowAgree_mono (r : EnrichedRecord) (rs : List EnrichedRecord)
    (lE lF : List ProductRow) (h : List.Forall₂ (rowAgree (r :: rs)) lE lF)
    (hc : ∀ c, lastWrite rs c = none → lastWrite (r :: rs) c = none) :
    List.Forall₂ (rowAgree rs) lE lF :=
  List.Forall₂.imp
    (fun _ _ hab => ⟨hab.1, hab.2.1, hab.2.2.1, fun hn => hab.2.2.2 (hc _ hn)⟩) h

theorem forall2_step_update (r : EnrichedRecord) (rs : List EnrichedRecord)
    (upd : ProductRow → ProductRow) (tid : Nat) :
    ∀ (lE lF : List ProductRow), List.Forall₂ (rowAgree (r :: rs)) lE lF →
      (∀ x, ¬ (x.id = tid) → upd x = x) →
      (∀ pE pF, pE ∈ lE → pF ∈ lF → rowAgree (r :: rs) pE pF → pF.id = tid →
         rowAgree rs pE (upd pF)) →
      (∀ pE pF, pE ∈ lE → pF ∈ lF → rowAgree (r :: rs) pE pF → ¬ (pF.id = tid) →
         rowAgree rs pE pF) →
      List.Forall₂ (rowAgree rs) lE (lF.map upd) := by
  intro lE lF h
  induction h with
  | nil => intro _ _ _; simp
  | cons ha hl ih =>
    rename_i a b lE' lF' 
    intro hother hrow hskip
    rw [List.map_cons]
    refine List.Forall₂.cons ?_ ?_
    · by_cases hb : b.id = tid
      · exact hrow a b (by simp) (by simp) ha hb
      · rw [hother b hb]
        exact hskip a b (by simp) (by simp) ha hb
    · exact ih hother
        (fun pE pF h1 h2 h3 h4 => hrow pE pF (by simp [h1]) (by simp [h2]) h3 h4)
        (fun pE pF h1 h2 h3 h4 => hskip pE pF (by simp [h1]) (by simp [h2]) h3 h4)

theorem updRow_row_congr (pA pB : ProductRow) (r : EnrichedRecord) (dA dB : DB)
    (h1 : pB.id = pA.id) (h2 : pB.code = pA.code) (h3 : pB.created_at = pA.created_at)
    (hb : dB.brands = dA.brands) (hc : dB.categories = dA.categories) :
    updRow pB r dB = updRow pA r dA := by
  unfold updRow
  rw [resolvedBrandId_congr dB dA _ hb, resolvedCategoryId_congr dB dA _ hc, h1, h2, h3]

theorem resolveBrandE_present (db : DB) (raw : List Char)
    (htr : (PyVal.vStr raw).truthy = true)
    (hmem : (pyStrip raw).take 255 ∈ brandNames db) :
    ∃ i, resolveBrandE db (.vStr raw) = .ok (db, some i) := by
  cases hF : db.brands.find? (fun x => x.name = (pyStrip raw).take 255) with
  | none =>
    obtain ⟨b, hb, hbn⟩ := List.mem_map.mp hmem
    have := List.find?_eq_none.mp hF b hb
    simp [hbn] at this
  | some b0 =>
    refine ⟨b0.id, ?_⟩
    rw [resolveBrandE, if_neg (by rw [htr]; simp)]
    show Except.ok ((resolveBrandDB db ((pyStrip raw).take 255)).1,
      some (resolveBrandDB db ((pyStrip raw).take 255)).2) = _
    unfold resolveBrandDB
    rw [hF]

theorem resolveCategoryE_present (db : DB) (raw : List Char)
    (htr : (PyVal.vStr raw).truthy = true)
    (hmem : (pyStrip raw).take 255 ∈ categoryNames db) :
    ∃ i, resolveCategoryE db (.vStr raw) = .ok (db, some i) := by
  cases hF : db.categories.find? (fun x => x.name = (pyStrip raw).take 255) with
  | none =>
    obtain ⟨c, hc, hcn⟩ := List.mem_map.mp hmem
    have := List.find?_eq_none.mp hF c hc
    simp [hcn] at this
  | some c0 =>
    refine ⟨c0.id, ?_⟩
    rw [resolveCategoryE, if_neg (by rw [htr]; simp)]
    show Except.ok ((resolveCategoryDB db ((pyStrip raw).take 255)).1,
      some (resolveCategoryDB db ((pyStrip raw).take 255)).2) = _
    unfold resolveCategoryDB
    rw [hF]

theorem loadDB_saturated_step (B : List EnrichedRecord) (E F : DB) (r : EnrichedRecord)
    (rs : List EnrichedRecord) (t : Nat)
    (hInvE : DBInv E)
    (hsuffix : (r :: rs) <:+ B)
    (hWF : WriteFixed E B)
    (hOK : docOK r)
    (hSatr : (recCode r).truthy = true →
       ((∃ p ∈ E.products, p.code = recCode r)
        ∧ (∀ raw, pyGetD r.data "brands" (.vStr []) = .vStr raw →
             (pyGetD r.data "brands" (.vStr [])).truthy = true →
             (pyStrip raw).take 255 ∈ brandNames E)
        ∧ (∀ raw, pyGetD r.data "category" (.vStr []) = .vStr raw →
             (pyGetD r.data "category" (.vStr [])).truthy = true →
             (pyStrip raw).take 255 ∈ categoryNames E)))
    (hA : AgreeExcept E F (r :: rs)) :
    ∃ F' bflag, loadDB F r t = .ok (F', bflag) ∧ AgreeExcept E F' rs := by
  have hInvF := agreeExcept_DBInv E F (r :: rs) hInvE hA
  obtain ⟨hFb, hFc, hFn1, hFn2, hFn3, hF2⟩ := hA
  by_cases htr : (recCode r).truthy = true
  case neg =>
    have hfalse : (recCode r).truthy = false := by
      revert htr
      cases (recCode r).truthy <;> simp
    refine ⟨F, false, loadDB_skip F r t hfalse, hFb, hFc, hFn1, hFn2, hFn3, ?_⟩
    refine forall2_rowAgree_mono r rs _ _ hF2 ?_
    intro c hn
    rw [lastWrite_cons_of_not_written r rs c
      (fun hw => by rw [hfalse] at hw; exact Bool.noConfusion hw.1)]
    exact hn
  case pos =>
    obtain ⟨⟨pE0, hpE0m, hpE0c⟩, hbnames, hcnames⟩ := hSatr htr
    obtain ⟨⟨pname, hpn⟩, ⟨grade, hgr⟩, hbT, hcT⟩ := hOK htr
    have hcodesE : (E.products.map (fun x => x.code)).Nodup := hInvE.2.2.2.2.1
    have hfindE : E.products.find? (fun x => x.code = recCode r) = some pE0 :=
      find?_map_eq (fun x => x.code) E.products pE0 (recCode r) hcodesE hpE0m hpE0c
    obtain ⟨pF0, hfindF, hagree0, hpF0m⟩ :=
      forall2_find?_partner (r :: rs) E.products F.products (recCode r) hF2 pE0 hfindE
    have hB : ∃ bid, resolveBrandE F (pyGetD r.data "brands" (.vStr [])) = .ok (F, bid) := by
      by_cases hbt : (pyGetD r.data "brands" (.vStr [])).truthy = false
      · exact ⟨none, by simp [resolveBrandE, hbt]⟩
      · have hbt' := bool_true_of_not_false hbt
        obtain ⟨raw, hraw⟩ := hbT hbt'
        have hmem : (pyStrip raw).take 255 ∈ brandNames F := by
          rw [show brandNames F = F.brands.map (fun x => x.name) from rfl, hFb]
          exact hbnames raw hraw hbt'
        rw [hraw]
        obtain ⟨i, hi⟩ := resolveBrandE_present F raw (by rw [← hraw]; exact hbt') hmem
        exact ⟨some i, hi⟩
    obtain ⟨bid, hB⟩ := hB
    have hC : ∃ cid, resolveCategoryE F (pyGetD r.data "category" (.vStr [])) = .ok (F, cid) := by
      by_cases hct : (pyGetD r.data "category" (.vStr [])).truthy = false
      · exact ⟨none, by simp [resolveCategoryE, hct]⟩
      · have hct' := bool_true_of_not_false hct
        obtain ⟨raw, hraw⟩ := hcT hct'
        have hmem : (pyStrip raw).take 255 ∈ categoryNames F := by
          rw [show categoryNames F = F.categories.map (fun x => x.name) from rfl, hFc]
          exact hcnames raw hraw hct'
        rw [hraw]
        obtain ⟨i, hi⟩ := resolveCategoryE_present F raw (by rw [← hraw]; exact hct') hmem
        exact ⟨some i, hi⟩
    obtain ⟨cid, hC⟩ := hC
    have hbid : resolvedBrandId F (pyGetD r.data "brands" (.vStr [])) = bid :=
      (resolveBrandE_ok_inversion F _ F bid hInvF.1 hInvF.2.1 hB).2.2.2.2.2.2.2.1
    have hcid : resolvedCategoryId F (pyGetD r.data "category" (.vStr [])) = cid :=
      (resolveCategoryE_ok_inversion F _ F cid hInvF.2.2.1 hInvF.2.2.2.1 hC).2.2.2.2.2.2.2.1
    have hc2 : ¬ ((pyGet r.data "code").truthy = false) := by
      have h1 : (pyGet r.data "code").truthy = true := htr
      simp [h1]
    have hfindF' : F.products.find? (fun p => p.code = pyGet r.data "code") = some pF0 :=
      hfindF
    refine ⟨{ F with products := F.products.map (fun x =>
        if x.id = pF0.id then
          { x with product_name := pname, nutriscore_grade := grade, nova_group := pyGet r.data "nova_group", quality_score := pyGet r.data "quality_score", brand_id := bid, category_id := cid }
        else x) }, true, ?_, ?_⟩
    · simp only [loadDB]
      rw [if_neg hc2]
      simp only [hfindF', hpn, hgr, hB, hC]
    · refine ⟨hFb, hFc, hFn1, hFn2, hFn3, ?_⟩
      show List.Forall₂ (rowAgree rs) E.products (F.products.map (fun x =>
        if x.id = pF0.id then
          { x with product_name := pname, nutriscore_grade := grade, nova_group := pyGet r.data "nova_group", quality_score := pyGet r.data "quality_score", brand_id := bid, category_id := cid }
        else x))
      refine forall2_step_update r rs _ pF0.id E.products F.products hF2 ?_ ?_ ?_
      · intro x hx
        rw [if_neg hx]
      · intro pE pF hpEm hpFm hag hid
        have hidsF : (F.products.map (fun x => x.id)).Nodup := hInvF.2.2.2.2.2.2
        have hpFeq : pF = pF0 :=
          eq_of_mem_of_nodup_map (fun x => x.id) F.products pF pF0 hidsF hpFm hpF0m
            (by show pF.id = pF0.id; rw [hid])
        have hidsE : (E.products.map (fun x => x.id)).Nodup := hInvE.2.2.2.2.2.2
        have hpEeq : pE = pE0 := by
          apply eq_of_mem_of_nodup_map (fun x => x.id) E.products pE pE0 hidsE hpEm hpE0m
          show pE.id = pE0.id
          rw [← hag.1, hpFeq, hagree0.1]
        subst hpFeq
        subst hpEeq
        rw [if_pos hid]
        have hupd2 : ({ pF with product_name := pname, nutriscore_grade := grade, nova_group := pyGet r.data "nova_group", quality_score := pyGet r.data "quality_score", brand_id := bid, category_id := cid } : ProductRow) = updRow pF r F := by
          unfold updRow
          rw [pySlice_ok_eq _ _ _ hpn, pySlice_ok_eq _ _ _ hgr, hbid, hcid]
        refine ⟨?_, ?_, ?_, ?_⟩
        · show ({ pF with product_name := pname, nutriscore_grade := grade, nova_group := pyGet r.data "nova_group", quality_score := pyGet r.data "quality_score", brand_id := bid, category_id := cid } : ProductRow).id = pE.id
          exact hagree0.1
        · exact hagree0.2.1
        · exact hagree0.2.2.1
        · intro hn
          have hlw1 : lastWrite (r :: rs) pE.code = some r := by
            rw [lastWrite, hn, if_pos ⟨htr, hpE0c.symm⟩]
          have hlwB : lastWrite B pE.code = some r :=
            lastWrite_suffix_some _ B _ r hsuffix hlw1
          have hfix : updRow pE r E = pE := hWF pE hpE0m r hlwB
          have hupd3 : updRow pF r F = updRow pE r E :=
            updRow_row_congr pE pF r E F hagree0.1 hagree0.2.1 hagree0.2.2.1
              (by rw [hFb]) (by rw [hFc])
          rw [hupd2, hupd3, hfix]
      · intro pE pF hpEm hpFm hag hid
        refine ⟨hag.1, hag.2.1, hag.2.2.1, ?_⟩
        intro hn
        apply hag.2.2.2
        have hnw : ¬ ((recCode r).truthy = true ∧ recCode r = pE.code) := by
          intro hw
          have hpEeq : pE = pE0 :=
            eq_of_mem_of_nodup_map (fun x => x.code) E.products pE pE0 hcodesE hpEm hpE0m
              (by show pE.code = pE0.code; rw [← hw.2, hpE0c])
          exact hid (by rw [hag.1, hpEeq, ← hagree0.1])
        rw [lastWrite_cons_of_not_written r rs pE.code hnw]
        exact hn

theorem foldDB_saturated (t : Nat) (B : List EnrichedRecord) (E : DB)
    (hInvE : DBInv E) (hSat : Saturated E B) (hOKs : ∀ x ∈ B, docOK x)
    (hWF : WriteFixed E B) :
    ∀ (remaining : List EnrichedRecord) (F : DB), remaining <:+ B →
      AgreeExcept E F remaining →
      ∃ F' n, foldDB t F remaining = .ok (F', n) ∧ AgreeExcept E F' [] := by
  intro remaining
  induction remaining with
  | nil =>
    intro F _ hA
    exact ⟨F, 0, rfl, hA⟩
  | cons r rs ih =>
    intro F hsuf hA
    have hrB : r ∈ B := by
      obtain ⟨pre, hpre⟩ := hsuf
      rw [← hpre]
      simp
    have hrsuf : rs <:+ B := by
      obtain ⟨pre, hpre⟩ := hsuf
      exact ⟨pre ++ [r], by rw [← hpre]; simp⟩
    obtain ⟨F1, bflag, hstep, hA1⟩ := loadDB_saturated_step B E F r rs t hInvE hsuf hWF
      (hOKs r hrB) (fun htr2 => hSat r hrB htr2) hA
    obtain ⟨F', n, hfold, hAnil⟩ := ih F1 hrsuf hA1
    exact ⟨F', if bflag then n + 1 else n, by simp [foldDB, hstep, hfold], hAnil⟩

theorem lookup_mem {β : Type} : ∀ (l : List (List Char × β)) (a : List Char) (b : β),
    l.lookup a = some b → (a, b) ∈ l := by
  intro l
  induction l with
  | nil =>
    intro a b h
    exact Option.noConfusion h
  | cons p l ih =>
    intro a b h
    obtain ⟨k, v⟩ := p
    rw [List.lookup] at h
    cases hp : (a == k) with
    | true =>
      rw [hp] at h
      injection h with h
      have hak : a = k := eq_of_beq hp
      rw [hak, h]
      exact List.mem_cons_self _ _
    | false =>
      rw [hp] at h
      exact List.mem_cons_of_mem _ (ih a b h)

theorem goc_brand_spec (s : ETLState) (v : PyVal) (hInv : RunInv s) :
    (∃ s1 r, getOrCreateBrand s v = .ok (s1, r) ∧
       resolveBrandE s.db v = .ok (s1.db, r) ∧ RunInv s1) ∨
    (∃ e, getOrCreateBrand s v = .error e ∧ resolveBrandE s.db v = .error e) := by
  by_cases hf : v.truthy = false
  · exact Or.inl ⟨s, none, by simp [getOrCreateBrand, hf], by simp [resolveBrandE, hf], hInv⟩
  · cases v with
    | vNull => exact absurd rfl hf
    | vNum q =>
      exact Or.inr ⟨⟨"AttributeError", "object has no attribute 'strip'"⟩,
        by simp [getOrCreateBrand, hf], by simp [resolveBrandE, hf]⟩
    | vList l =>
      exact Or.inr ⟨⟨"AttributeError", "object has no attribute 'strip'"⟩,
        by simp [getOrCreateBrand, hf], by simp [resolveBrandE, hf]⟩
    | vStr raw =>
      left
      cases hc : s.brandsCache.lookup ((pyStrip raw).take 255) with
      | some bid =>
        obtain ⟨b0, hb0m, hb0id, hb0n⟩ :=
          hInv.2.1 ((pyStrip raw).take 255, bid) (lookup_mem _ _ _ hc)
        have hnodup : (s.db.brands.map (fun b => b.name)).Nodup := hInv.1.1
        have hfind : s.db.brands.find? (fun b => b.name = (pyStrip raw).take 255) = some b0 :=
          find?_map_eq (fun b => b.name) s.db.brands b0 ((pyStrip raw).take 255) hnodup hb0m hb0n
        refine ⟨s, some bid, ?_, ?_, hInv⟩
        · simp [getOrCreateBrand, hf, hc]
        · simp [resolveBrandE, resolveBrandDB, hf, hfind, hb0id]
      | none =>
        cases hfind : s.db.brands.find? (fun b => b.name = (pyStrip raw).take 255) with
        | some b =>
          have hbm : b ∈ s.db.brands := List.mem_of_find?_eq_some hfind
          have hbn : b.name = (pyStrip raw).take 255 := by
            have h0 := List.find?_some hfind
            exact of_decide_eq_true h0
          refine ⟨⟨s.db, ((pyStrip raw).take 255, b.id) :: s.brandsCache, s.categoriesCache⟩,
            some b.id, ?_, ?_, hInv.1, ?_, hInv.2.2⟩
          · simp [getOrCreateBrand, hf, hc, hfind]
          · simp [resolveBrandE, resolveBrandDB, hf, hfind]
          · intro e he
            rcases List.mem_cons.mp he with he1 | he2
            · subst he1
              exact ⟨b, hbm, rfl, hbn⟩
            · exact hInv.2.1 e he2
        | none =>
          have hres : resolveBrandE s.db (.vStr raw) =
              .ok ({ s.db with brands := s.db.brands ++ [⟨s.db.nextBrandId, (pyStrip raw).take 255⟩], nextBrandId := s.db.nextBrandId + 1 }, some s.db.nextBrandId) := by
            simp [resolveBrandE, resolveBrandDB, hf, hfind]
          refine ⟨⟨{ s.db with brands := s.db.brands ++ [⟨s.db.nextBrandId, (pyStrip raw).take 255⟩], nextBrandId := s.db.nextBrandId + 1 },
            ((pyStrip raw).take 255, s.db.nextBrandId) :: s.brandsCache, s.categoriesCache⟩,
            some s.db.nextBrandId, ?_, hres, ?_, ?_, hInv.2.2⟩
          · simp [getOrCreateBrand, hf, hc, hfind]
          · obtain ⟨h1, h2, h3, h4, hext, hN, hI, hres2, halt⟩ :=
              resolveBrandE_ok_inversion s.db (.vStr raw) _ _ hInv.1.1 hInv.1.2.1 hres
            exact ⟨hN, hI, hInv.1.2.2.1, hInv.1.2.2.2.1, hInv.1.2.2.2.2.1,
              hInv.1.2.2.2.2.2.1, hInv.1.2.2.2.2.2.2⟩
          · intro e he
            rcases List.mem_cons.mp he with he1 | he2
            · subst he1
              refine ⟨⟨s.db.nextBrandId, (pyStrip raw).take 255⟩, ?_, rfl, rfl⟩
              exact List.mem_append_right _ (by simp)
            · obtain ⟨b, hbm, hbid, hbn⟩ := hInv.2.1 e he2
              exact ⟨b, List.mem_append_left _ hbm, hbid, hbn⟩

theorem goc_category_spec (s : ETLState) (v : PyVal) (hInv : RunInv s) :
    (∃ s1 r, getOrCreateCategory s v = .ok (s1, r) ∧
       resolveCategoryE s.db v = .ok (s1.db, r) ∧ RunInv s1) ∨
    (∃ e, getOrCreateCategory s v = .error e ∧ resolveCategoryE s.db v = .error e) := by
  by_cases hf : v.truthy = false
  · exact Or.inl ⟨s, none, by simp [getOrCreateCategory, hf], by simp [resolveCategoryE, hf], hInv⟩
  · cases v with
    | vNull => exact absurd rfl hf
    | vNum q =>
      exact Or.inr ⟨⟨"AttributeError", "object has no attribute 'strip'"⟩,
        by simp [getOrCreateCategory, hf], by simp [resolveCategoryE, hf]⟩
    | vList l =>
      exact Or.inr ⟨⟨"AttributeError", "object has no attribute 'strip'"⟩,
        by simp [getOrCreateCategory, hf], by simp [resolveCategoryE, hf]⟩
    | vStr raw =>
      left
      cases hc : s.categoriesCache.lookup ((pyStrip raw).take 255) with
      | some cid =>
        obtain ⟨c0, hc0m, hc0id, hc0n⟩ :=
          hInv.2.2 ((pyStrip raw).take 255, cid) (lookup_mem _ _ _ hc)
        have hnodup : (s.db.categories.map (fun c => c.name)).Nodup := hInv.1.2.2.1
        have hfind : s.db.categories.find? (fun c => c.name = (pyStrip raw).take 255) = some c0 :=
          find?_map_eq (fun c => c.name) s.db.categories c0 ((pyStrip raw).take 255) hnodup hc0m hc0n
        refine ⟨s, some cid, ?_, ?_, hInv⟩
        · simp [getOrCreateCategory, hf, hc]
        · simp [resolveCategoryE, resolveCategoryDB, hf, hfind, hc0id]
      | none =>
        cases hfind : s.db.categories.find? (fun c => c.name = (pyStrip raw).take 255) with
        | some c =>
          have hcm : c ∈ s.db.categories := List.mem_of_find?_eq_some hfind
          have hcn : c.name = (pyStrip raw).take 255 := by
            have h0 := List.find?_some hfind
            exact of_decide_eq_true h0
          refine ⟨⟨s.db, s.brandsCache, ((pyStrip raw).take 255, c.id) :: s.categoriesCache⟩,
            some c.id, ?_, ?_, hInv.1, hInv.2.1, ?_⟩
          · simp [getOrCreateCategory, hf, hc, hfind]
          · simp [resolveCategoryE, resolveCategoryDB, hf, hfind]
          · intro e he
            rcases List.mem_cons.mp he with he1 | he2
            · subst he1
              exact ⟨c, hcm, rfl, hcn⟩
            · exact hInv.2.2 e he2
        | none =>
          have hres : resolveCategoryE s.db (.vStr raw) =
              .ok ({ s.db with categories := s.db.categories ++ [⟨s.db.nextCategoryId, (pyStrip raw).take 255⟩], nextCategoryId := s.db.nextCategoryId + 1 }, some s.db.nextCategoryId) := by
            simp [resolveCategoryE, resolveCategoryDB, hf, hfind]
          refine ⟨⟨{ s.db with categories := s.db.categories ++ [⟨s.db.nextCategoryId, (pyStrip raw).take 255⟩], nextCategoryId := s.db.nextCategoryId + 1 },
            s.brandsCache, ((pyStrip raw).take 255, s.db.nextCategoryId) :: s.categoriesCache⟩,
            some s.db.nextCategoryId, ?_, hres, ?_, ?_, ?_⟩
          · simp [getOrCreateCategory, hf, hc, hfind]
          · obtain ⟨h1, h2, h3, h4, hext, hN, hI, hres2, halt⟩ :=
              resolveCategoryE_ok_inversion s.db (.vStr raw) _ _ hInv.1.2.2.1 hInv.1.2.2.2.1 hres
            exact ⟨hInv.1.1, hInv.1.2.1, hN, hI, hInv.1.2.2.2.2.1,
              hInv.1.2.2.2.2.2.1, hInv.1.2.2.2.2.2.2⟩
          · intro e he
            obtain ⟨b, hbm, hbid, hbn⟩ := hInv.2.1 e he
            exact ⟨b, hbm, hbid, hbn⟩
          · intro e he
            rcases List.mem_cons.mp he with he1 | he2
            · subst he1
              refine ⟨⟨s.db.nextCategoryId, (pyStrip raw).take 255⟩, ?_, rfl, rfl⟩
              exact List.mem_append_right _ (by simp)
            · obtain ⟨c, hcm, hcid, hcn⟩ := hInv.2.2 e he2
              exact ⟨c, List.mem_append_left _ hcm, hcid, hcn⟩

theorem loadProduct_equiv (s : ETLState) (rec : EnrichedRecord) (t : Nat) (hInv : RunInv s) :
    (∃ s1 b, loadProduct s rec t = .ok (s1, b) ∧
       loadDB s.db rec t = .ok (s1.db, b) ∧ RunInv s1) ∨
    (∃ e, loadProduct s rec t = .error e ∧ loadDB s.db rec t = .error e) := by
  by_cases hcode : (pyGet rec.data "code").truthy = false
  · exact Or.inl ⟨s, false, by simp [loadProduct, hcode], by simp [loadDB, hcode], hInv⟩
  · cases hfind : s.db.products.find? (fun p => p.code = pyGet rec.data "code") with
    | some existing =>
      cases hpn : pySlice (pyGetD rec.data "product_name" (.vStr [])) 500 with
      | error e =>
        exact Or.inr ⟨e, by simp [loadProduct, hcode, hfind, hpn],
          by simp [loadDB, hcode, hfind, hpn]⟩
      | ok pname =>
        cases hgr : pySlice (pyOr (pyGet rec.data "nutriscore_grade") (.vStr [])) 1 with
        | error e =>
          exact Or.inr ⟨e, by simp [loadProduct, hcode, hfind, hpn, hgr],
            by simp [loadDB, hcode, hfind, hpn, hgr]⟩
        | ok grade =>
          rcases goc_brand_spec s (pyGetD rec.data "brands" (.vStr [])) hInv with
            ⟨s1, bid, hgB, hrB, hInv1⟩ | ⟨e, hgB, hrB⟩
          · rcases goc_category_spec s1 (pyGetD rec.data "category" (.vStr [])) hInv1 with
              ⟨s2, cid, hgC, hrC, hInv2⟩ | ⟨e, hgC, hrC⟩
            · left
              have hLD : loadDB s.db rec t = .ok ({ s2.db with products := s2.db.products.map (fun p => if p.id = existing.id then { p with product_name := pname, nutriscore_grade := grade, nova_group := pyGet rec.data "nova_group", quality_score := pyGet rec.data "quality_score", brand_id := bid, category_id := cid } else p) }, true) := by
                simp [loadDB, hcode, hfind, hpn, hgr, hrB, hrC]
              refine ⟨{ s2 with db := { s2.db with products := s2.db.products.map (fun p => if p.id = existing.id then { p with product_name := pname, nutriscore_grade := grade, nova_group := pyGet rec.data "nova_group", quality_score := pyGet rec.data "quality_score", brand_id := bid, category_id := cid } else p) } }, true, ?_, hLD, ?_, hInv2.2.1, hInv2.2.2⟩
              · simp [loadProduct, hcode, hfind, hpn, hgr, hgB, hgC]
              · exact (loadDB_ok_inversion s.db rec t _ true hInv.1 hLD).1
            · exact Or.inr ⟨e, by simp [loadProduct, hcode, hfind, hpn, hgr, hgB, hgC],
                by simp [loadDB, hcode, hfind, hpn, hgr, hrB, hrC]⟩
          · exact Or.inr ⟨e, by simp [loadProduct, hcode, hfind, hpn, hgr, hgB],
              by simp [loadDB, hcode, hfind, hpn, hgr, hrB]⟩
    | none =>
      rcases goc_brand_spec s (pyGetD rec.data "brands" (.vStr [])) hInv with
        ⟨s1, bid, hgB, hrB, hInv1⟩ | ⟨e, hgB, hrB⟩
      · rcases goc_category_spec s1 (pyGetD rec.data "category" (.vStr [])) hInv1 with
          ⟨s2, cid, hgC, hrC, hInv2⟩ | ⟨e, hgC, hrC⟩
        · cases hpn : pySlice (pyGetD rec.data "product_name" (.vStr [])) 500 with
          | error e =>
            exact Or.inr ⟨e, by simp [loadProduct, hcode, hfind, hgB, hgC, hpn],
              by simp [loadDB, hcode, hfind, hrB, hrC, hpn]⟩
          | ok pname =>
            cases hgr : pySlice (pyOr (pyGet rec.data "nutriscore_grade") (.vStr [])) 1 with
            | error e =>
              exact Or.inr ⟨e, by simp [loadProduct, hcode, hfind, hgB, hgC, hpn, hgr],
                by simp [loadDB, hcode, hfind, hrB, hrC, hpn, hgr]⟩
            | ok grade =>
              left
              have hLD : loadDB s.db rec t = .ok ({ s2.db with products := s2.db.products ++ [⟨s2.db.nextProductId, pyGet rec.data "code", pname, bid, cid, grade, pyGet rec.data "nova_group", pyGet rec.data "quality_score", t⟩], nextProductId := s2.db.nextProductId + 1 }, true) := by
                simp [loadDB, hcode, hfind, hrB, hrC, hpn, hgr]
              refine ⟨{ s2 with db := { s2.db with products := s2.db.products ++ [⟨s2.db.nextProductId, pyGet rec.data "code", pname, bid, cid, grade, pyGet rec.data "nova_group", pyGet rec.data "quality_score", t⟩], nextProductId := s2.db.nextProductId + 1 } }, true, ?_, hLD, ?_, hInv2.2.1, hInv2.2.2⟩
              · simp [loadProduct, hcode, hfind, hgB, hgC, hpn, hgr]
              · exact (loadDB_ok_inversion s.db rec t _ true hInv.1 hLD).1
        · exact Or.inr ⟨e, by simp [loadProduct, hcode, hfind, hgB, hgC],
            by simp [loadDB, hcode, hfind, hrB, hrC]⟩
      · exact Or.inr ⟨e, by simp [loadProduct, hcode, hfind, hgB],
          by simp [loadDB, hcode, hfind, hrB]⟩

theorem runInv_fresh (db : DB) (h : DBInv db) : RunInv ⟨db, [], []⟩ :=
  ⟨h, fun e he => absurd he (List.not_mem_nil e), fun e he => absurd he (List.not_mem_nil e)⟩

theorem runFold_equiv (t : Nat) (batch : List EnrichedRecord) :
    ∀ s : ETLState, RunInv s →
      (∃ s1 n, runFold t s batch = .ok (s1, n) ∧ foldDB t s.db batch = .ok (s1.db, n)
        ∧ RunInv s1) ∨
      (∃ e, runFold t s batch = .error e ∧ foldDB t s.db batch = .error e) := by
  induction batch with
  | nil =>
    intro s hInv
    exact Or.inl ⟨s, 0, rfl, rfl, hInv⟩
  | cons r rs ih =>
    intro s hInv
    rcases loadProduct_equiv s r t hInv with ⟨s1, b, hLP, hLD, hInv1⟩ | ⟨e, hLP, hLD⟩
    · rcases ih s1 hInv1 with ⟨s2, n, hRF, hFD, hInv2⟩ | ⟨e, hRF, hFD⟩
      · refine Or.inl ⟨s2, if b then n + 1 else n, ?_, ?_, hInv2⟩
        · simp [runFold, hLP, hRF]
        · simp [foldDB, hLD, hFD]
      · refine Or.inr ⟨e, ?_, ?_⟩
        · simp [runFold, hLP, hRF]
        · simp [foldDB, hLD, hFD]
    · refine Or.inr ⟨e, ?_, ?_⟩
      · simp [runFold, hLP]
      · simp [foldDB, hLD]

theorem runDB_two_same_code (code n1 n2 : List Char) (t : Nat)
    (htr : (PyVal.vStr code).truthy = true) :
    ∃ p, (runDB emptyDB [mkCodeNameRec code n1, mkCodeNameRec code n2] t).products = [p]
      ∧ p.code = .vStr code ∧ p.product_name = .vStr (n2.take 500) := by
  have hne : ¬ code = [] := by
    intro h
    rw [h] at htr
    exact absurd htr (by decide)
  have h1 : loadProduct ⟨emptyDB, [], []⟩ (mkCodeNameRec code n1) t =
      .ok (⟨⟨[], [], [⟨1, .vStr code, .vStr (n1.take 500), none, none, .vStr [], .vNull, .vNull, t⟩], 1, 1, 2⟩, [], []⟩, true) := by
    have hco : pyGet (mkCodeNameRec code n1).data "code" = .vStr code := rfl
    have hpn : pyGetD (mkCodeNameRec code n1).data "product_name" (.vStr []) = .vStr n1 := rfl
    have hbr : pyGetD (mkCodeNameRec code n1).data "brands" (.vStr []) = .vStr [] := rfl
    have hca : pyGetD (mkCodeNameRec code n1).data "category" (.vStr []) = .vStr [] := rfl
    have hgr : pyGet (mkCodeNameRec code n1).data "nutriscore_grade" = .vNull := rfl
    have hng : pyGet (mkCodeNameRec code n1).data "nova_group" = .vNull := rfl
    have hqs : pyGet (mkCodeNameRec code n1).data "quality_score" = .vNull := rfl
    simp [loadProduct, hco, hpn, hbr, hca, hgr, hng, hqs, htr, hne, pyOr, pySlice,
      getOrCreateBrand, getOrCreateCategory, emptyDB, PyVal.truthy, List.find?]
  have h2 : loadProduct (⟨⟨[], [], [⟨1, .vStr code, .vStr (n1.take 500), none, none, .vStr [], .vNull, .vNull, t⟩], 1, 1, 2⟩, [], []⟩ : ETLState) (mkCodeNameRec code n2) t =
      .ok (⟨⟨[], [], [⟨1, .vStr code, .vStr (n2.take 500), none, none, .vStr [], .vNull, .vNull, t⟩], 1, 1, 2⟩, [], []⟩, true) := by
    have hco : pyGet (mkCodeNameRec code n2).data "code" = .vStr code := rfl
    have hpn : pyGetD (mkCodeNameRec code n2).data "product_name" (.vStr []) = .vStr n2 := rfl
    have hbr : pyGetD (mkCodeNameRec code n2).data "brands" (.vStr []) = .vStr [] := rfl
    have hca : pyGetD (mkCodeNameRec code n2).data "category" (.vStr []) = .vStr [] := rfl
    have hgr : pyGet (mkCodeNameRec code n2).data "nutriscore_grade" = .vNull := rfl
    have hng : pyGet (mkCodeNameRec code n2).data "nova_group" = .vNull := rfl
    have hqs : pyGet (mkCodeNameRec code n2).data "quality_score" = .vNull := rfl
    simp [loadProduct, hco, hpn, hbr, hca, hgr, hng, hqs, htr, hne, pyOr, pySlice,
      getOrCreateBrand, getOrCreateCategory, PyVal.truthy, List.find?]
  refine ⟨⟨1, .vStr code, .vStr (n2.take 500), none, none, .vStr [], .vNull, .vNull, t⟩, ?_, rfl, rfl⟩
  simp [runDB, runModel, runFold, h1, h2]

/-- C1: `Product.code` is the sole business identity of the load step.  From
any store satisfying the uniqueness invariants, one `run()` leaves a store
with pairwise-distinct product codes that still satisfies the invariants; a
second `run()` of the same enriched batch (at any later timestamp) leaves the
durable store exactly as the first run left it — an existing code is updated
in place, never duplicated; and loading two records with the same code and
different names from an empty store yields exactly one product row carrying
the second (latest) name. -/
theorem load_idempotent (db : DB) (batch : List EnrichedRecord) (t1 t2 : Nat)
    (hInv : DBInv db) :
    (productCodes (runDB db batch t1)).Nodup
    ∧ DBInv (runDB db batch t1)
    ∧ runDB (runDB db batch t1) batch t2 = runDB db batch t1
    ∧ (∀ code n1 n2, (PyVal.vStr code).truthy = true →
         ∃ p, (runDB emptyDB [mkCodeNameRec code n1, mkCodeNameRec code n2] t1).products = [p]
           ∧ p.code = .vStr code ∧ p.product_name = .vStr (n2.take 500)) := by
  have hRInv : RunInv ⟨db, [], []⟩ := runInv_fresh db hInv
  rcases runFold_equiv t1 batch ⟨db, [], []⟩ hRInv with
    ⟨s1, n, hRF, hFD, hInv1⟩ | ⟨e, hRF, hFD⟩
  · have hrun1 : runDB db batch t1 = s1.db := by
      simp [runDB, runModel, hRF]
    obtain ⟨hInvD, hextB, hextC, hcodes, huntouched, hOKs, hSat, hWF⟩ :=
      foldDB_ok_inversion t1 batch db s1.db n hInv hFD
    refine ⟨?_, ?_, ?_, fun code n1 n2 htr => runDB_two_same_code code n1 n2 t1 htr⟩
    · rw [hrun1]
      exact hInvD.2.2.2.2.1
    · rw [hrun1]
      exact hInvD
    · obtain ⟨F', n2, hfold2, hAnil⟩ :=
        foldDB_saturated t2 batch s1.db hInvD hSat hOKs hWF batch s1.db
          (List.suffix_refl batch) (agreeExcept_refl s1.db batch)
      have hF'E : F' = s1.db := agreeExcept_nil_eq s1.db F' hAnil
      have hRInv2 : RunInv ⟨s1.db, [], []⟩ := runInv_fresh s1.db hInvD
      rcases runFold_equiv t2 batch ⟨s1.db, [], []⟩ hRInv2 with
        ⟨s2, n2', hRF2, hFD2, hInv2⟩ | ⟨e, hRF2, hFD2⟩
      · have hrun2 : runDB s1.db batch t2 = s2.db := by
          simp [runDB, runModel, hRF2]
        rw [hrun1, hrun2]
        rw [hfold2] at hFD2
        injection hFD2 with h
        injection h with ha hb
        rw [← ha, hF'E]
      · rw [hfold2] at hFD2
        exact Except.noConfusion hFD2
  · have hrun1 : runDB db batch t1 = db := by
      simp [runDB, runModel, hRF]
    have hnall : ¬ (∀ r ∈ batch, docOK r) := by
      intro hall
      obtain ⟨out, hout⟩ := foldDB_ok_of_docOK t1 batch db hall
      rw [hFD] at hout
      exact Except.noConfusion hout
    rcases runFold_equiv t2 batch ⟨db, [], []⟩ hRInv with
      ⟨s2, n2, hRF2, hFD2, hInv2⟩ | ⟨e2, hRF2, hFD2⟩
    · exact absurd (foldDB_ok_inversion t2 batch db s2.db n2 hInv hFD2).2.2.2.2.2.1 hnall
    · have hrun2 : runDB db batch t2 = db := by
        simp [runDB, runModel, hRF2]
      rw [hrun1]
      exact ⟨hInv.2.2.2.2.1, hInv, hrun2,
        fun code n1 n2 htr => runDB_two_same_code code n1 n2 t1 htr⟩

theorem load_idempotent_witness :
    DBInv emptyDB
    ∧ ((productCodes (runDB emptyDB [recGood] 0)).Nodup
       ∧ DBInv (runDB emptyDB [recGood] 0)
       ∧ runDB (runDB emptyDB [recGood] 0) [recGood] 1 = runDB emptyDB [recGood] 0
       ∧ (∀ code n1 n2, (PyVal.vStr code).truthy = true →
            ∃ p, (runDB emptyDB [mkCodeNameRec code n1, mkCodeNameRec code n2] 0).products = [p]
              ∧ p.code = .vStr code ∧ p.product_name = .vStr (n2.take 500))) :=
  ⟨by simp [DBInv, brandNames, categoryNames, productCodes, productIds, emptyDB],
   load_idempotent emptyDB [recGood] 0 1
     (by simp [DBInv, brandNames, categoryNames, productCodes, productIds, emptyDB])⟩

/-- C8: a successful load step upserts a `Product` row only — the schema has
no NutritionFacts model, so no NutritionFacts row is (or can be) updated or
created.  When the code already has a row, that row's mutable fields are
rewritten in place (same identity, product counter unchanged); when it has
none, exactly one new `Product` row is appended. -/
theorem load_upsert_no_nutrition (s : ETLState) (rec : EnrichedRecord) (t : Nat)
    (s1 : ETLState) (b : Bool) (hInv : RunInv s)
    (h : loadProduct s rec t = .ok (s1, b)) (htr : (recCode rec).truthy = true) :
    "NutritionFacts" ∉ modelClassNames
    ∧ ((∃ pE, s.db.products.find? (fun x => x.code = recCode rec) = some pE
          ∧ s1.db.products
              = s.db.products.map (fun x => if x.id = pE.id then updRow x rec s1.db else x)
          ∧ s1.db.nextProductId = s.db.nextProductId)
       ∨ (s.db.products.find? (fun x => x.code = recCode rec) = none
          ∧ s1.db.products = s.db.products ++ [newRowFor rec s1.db s.db.nextProductId t]
          ∧ s1.db.nextProductId = s.db.nextProductId + 1)) := by
  rcases loadProduct_equiv s rec t hInv with ⟨s1', b', hLP, hLD, hInv1⟩ | ⟨e, hLP, hLD⟩
  · rw [h] at hLP
    injection hLP with hx
    injection hx with hx1 hx2
    rw [← hx1] at hLD
    refine ⟨by decide, ?_⟩
    rcases (loadDB_ok_inversion s.db rec t s1.db b' hInv.1 hLD).2.2.2.2 with
      ⟨hf, _, _⟩ | ⟨_, _, _, _, hdisj⟩
    · rw [htr] at hf
      exact Bool.noConfusion hf
    · exact hdisj
  · rw [h] at hLP
    exact Except.noConfusion hLP

/-- C8 counterexample: the relational schema declares exactly the Brand,
Category and Product models — no NutritionFacts model or table exists — and
a concrete successfully-enriched record carries no nutrition data for the
loader to store. -/
theorem nutrition_schema_counterexample :
    modelClassNames = ["Brand", "Category", "Product"]
    ∧ "NutritionFacts" ∉ modelClassNames
    ∧ "nutrition_facts" ∉ modelTableNames
    ∧ pyLookup (enrich_product sampleSuccessDoc 1 sampleNow).data "nutrition" = none := by
  refine ⟨rfl, by decide, by decide, by decide⟩

/-- C8 witness: a concrete record loaded into an empty store takes the
insert branch, appending exactly one product row. -/
theorem load_upsert_no_nutrition_witness :
    RunInv ⟨emptyDB, [], []⟩
    ∧ loadProduct ⟨emptyDB, [], []⟩ (mkCodeNameRec "7".data "N".data) 0
        = .ok (⟨⟨[], [], [⟨1, .vStr "7".data, .vStr "N".data, none, none, .vStr [], .vNull, .vNull, 0⟩], 1, 1, 2⟩, [], []⟩, true)
    ∧ (recCode (mkCodeNameRec "7".data "N".data)).truthy = true
    ∧ ("NutritionFacts" ∉ modelClassNames
       ∧ ((∃ pE, emptyDB.products.find?
               (fun x => x.code = recCode (mkCodeNameRec "7".data "N".data)) = some pE
             ∧ (⟨⟨[], [], [⟨1, .vStr "7".data, .vStr "N".data, none, none, .vStr [], .vNull, .vNull, 0⟩], 1, 1, 2⟩, [], []⟩ : ETLState).db.products
                 = emptyDB.products.map (fun x => if x.id = pE.id then updRow x (mkCodeNameRec "7".data "N".data) (⟨⟨[], [], [⟨1, .vStr "7".data, .vStr "N".data, none, none, .vStr [], .vNull, .vNull, 0⟩], 1, 1, 2⟩, [], []⟩ : ETLState).db else x)
             ∧ (⟨⟨[], [], [⟨1, .vStr "7".data, .vStr "N".data, none, none, .vStr [], .vNull, .vNull, 0⟩], 1, 1, 2⟩, [], []⟩ : ETLState).db.nextProductId = emptyDB.nextProductId)
          ∨ (emptyDB.products.find?
               (fun x => x.code = recCode (mkCodeNameRec "7".data "N".data)) = none
             ∧ (⟨⟨[], [], [⟨1, .vStr "7".data, .vStr "N".data, none, none, .vStr [], .vNull, .vNull, 0⟩], 1, 1, 2⟩, [], []⟩ : ETLState).db.products
                 = emptyDB.products ++ [newRowFor (mkCodeNameRec "7".data "N".data) (⟨⟨[], [], [⟨1, .vStr "7".data, .vStr "N".data, none, none, .vStr [], .vNull, .vNull, 0⟩], 1, 1, 2⟩, [], []⟩ : ETLState).db emptyDB.nextProductId 0]
             ∧ (⟨⟨[], [], [⟨1, .vStr "7".data, .vStr "N".data, none, none, .vStr [], .vNull, .vNull, 0⟩], 1, 1, 2⟩, [], []⟩ : ETLState).db.nextProductId = emptyDB.nextProductId + 1))) := by
  refine ⟨runInv_fresh emptyDB (by simp [DBInv, brandNames, categoryNames, productCodes, productIds, emptyDB]), by decide, by decide, ?_⟩
  exact load_upsert_no_nutrition ⟨emptyDB, [], []⟩ (mkCodeNameRec "7".data "N".data) 0
    ⟨⟨[], [], [⟨1, .vStr "7".data, .vStr "N".data, none, none, .vStr [], .vNull, .vNull, 0⟩], 1, 1, 2⟩, [], []⟩ true
    (runInv_fresh emptyDB (by simp [DBInv, brandNames, categoryNames, productCodes, productIds, emptyDB]))
    (by decide) (by decide)
